import Mathlib

/-!
# Product list with cart: cart store, cart view, button sync, confirmation

A shallow embedding of `src/scripts/main.js`.  The page is a record holding the
two module-level variables (`cart`, `productsData`) and the parts of the document
the script reads or writes.  Every function of the script becomes a function
from pages to pages.

Conventions of the embedding

* Prices are exact two-decimal amounts, held as a natural number of cents;
  `toFixed2` prints such an amount the way `Number.prototype.toFixed(2)` prints
  the corresponding decimal.  The rounding of double arithmetic is not modelled.
* The accumulator of the two `reduce` calls is an ordinary JavaScript object.
  Its own properties are kept as an association list in creation order, property
  reads fall back to `Object.prototype`, and `Object.values` enumerates the keys
  that are array indices first, in ascending numeric order, and the remaining
  string keys in creation order afterwards.
* A card is found by the text of its heading.  The heading is written as markup
  holding the product name, so its text is what the HTML parser makes of the
  name; the parser is not part of the script and enters as the parameter `text`
  of `makeCard`, `renderProducts` and `pageLoad`.  Names are assumed to leave the
  element structure of the card intact.  The elements of the cart view and of the
  confirmation are recorded by the strings interpolated into their markup.
* The static markup of the page is not part of the script; the initial text and
  inline styles it gives to the cart panel are parameters (`StaticHtml`).
-/

namespace ProductCart

/-! ## Data model -/

/-- The image references of a catalog record that the script reads. -/
structure Image where
  thumbnail : String
  desktop : String
deriving DecidableEq, Repr

/-- A catalog record; `price` is in cents. -/
structure Product where
  name : String
  category : String
  price : Nat
  image : Image
deriving DecidableEq, Repr

/-- The object built by the spread of an item together with a `quantity` field. -/
structure GroupedItem where
  item : Product
  quantity : Nat
deriving DecidableEq, Repr

/-- Name of a grouped item (copied from the item by the spread). -/
def GroupedItem.name (g : GroupedItem) : String := g.item.name

/-- Unit price of a grouped item (copied from the item by the spread). -/
def GroupedItem.price (g : GroupedItem) : Nat := g.item.price

/-- Line subtotal `item.price * item.quantity`. -/
def GroupedItem.itemTotal (g : GroupedItem) : Nat := g.price * g.quantity

/-- One product card built by `renderProducts`. -/
structure ProductCard where
  nameText : String
  categoryText : String
  priceText : String
  addBtnDisplay : String
  addedBtnDisplay : String
  quantityText : String
  imageBorder : String
deriving DecidableEq, Repr

/-- One `.cart-item` element appended by `updateCartUI`; `removeName` is the
name its remove button passes to `removeAllFromCart`. -/
structure CartItemEl where
  nameText : String
  quantityText : String
  priceText : String
  totalText : String
  removeName : String
deriving DecidableEq, Repr

/-- One `.confirm-order-item` block of the confirmation markup. -/
structure ConfirmItemEl where
  thumbnail : String
  nameText : String
  quantityText : String
  unitPriceText : String
  totalText : String
deriving DecidableEq, Repr

/-- Content of the confirmation container: what the static page put there, or
an order summary written by `showConfirmationModal`. -/
inductive ConfirmContent where
  | static : ConfirmContent
  | order (items : List ConfirmItemEl) (totalText : String) : ConfirmContent
deriving DecidableEq, Repr

/-- Script state together with the document parts the script touches. -/
structure Page where
  cart : List Product
  productsData : List Product
  productCards : List ProductCard
  cartItemsContainer : List CartItemEl
  cartCount : String
  cartEmptyDisplay : String
  cartContentDisplay : String
  cartTotalAmount : String
  confirmOrderContainer : ConfirmContent
  confirmOrderModalActive : Bool
  alerts : List String
deriving DecidableEq, Repr

/-- Text and inline styles of the cart panel as the static page ships them. -/
structure StaticHtml where
  cartCount : String
  cartEmptyDisplay : String
  cartContentDisplay : String
  cartTotalAmount : String
deriving DecidableEq, Repr

/-! ## Number formatting -/

/-- Two-decimal rendering of an amount of cents, as `toFixed(2)` prints it.  Amounts
are exact here: the rounding of the double arithmetic the code computes products
and sums with, and the exponent form `toFixed` switches to from `1e21`, are outside
the embedding. -/
def toFixed2 (cents : Nat) : String :=
  toString (cents / 100) ++ "." ++
    (if cents % 100 < 10 then "0" ++ toString (cents % 100) else toString (cents % 100))

/-! ## JavaScript objects used as maps -/

/-- Property names every ordinary object inherits from `Object.prototype` in a
browser.  Each of them reads as a truthy value (a function, or the prototype
object itself for `__proto__`). -/
def protoKeys : List String :=
  ["constructor", "hasOwnProperty", "isPrototypeOf", "propertyIsEnumerable",
   "toLocaleString", "toString", "valueOf", "__proto__", "__defineGetter__",
   "__defineSetter__", "__lookupGetter__", "__lookupSetter__"]

/-- Decimal value of a list of digit characters. -/
def digitsValue (cs : List Char) : Nat :=
  cs.foldl (fun n c => 10 * n + (c.toNat - 48)) 0

/-- The array index a property key denotes, if it is one: the canonical decimal
string of an integer below `2 ^ 32 - 1`. -/
def arrayIndex? (key : String) : Option Nat :=
  match key.data with
  | [] => none
  | [c] => if c.isDigit then some (c.toNat - 48) else none
  | c :: cs =>
    if c ≠ '0' ∧ (c :: cs).all Char.isDigit ∧ digitsValue (c :: cs) < 4294967295 then
      some (digitsValue (c :: cs))
    else none

/-- Own properties of the accumulator object, in creation order. -/
abbrev JSObject := List (String × GroupedItem)

/-- Truthiness of the property read `acc[key]`: an own property holds an object,
an inherited one is one of `protoKeys`, anything else is `undefined`. -/
def JSObject.truthy (acc : JSObject) (key : String) : Bool :=
  (acc.lookup key).isSome || decide (key ∈ protoKeys)

/-- The statement `acc[key].quantity++`: an own property is updated in place;
otherwise the object reached through the prototype chain is the one mutated and
the accumulator keeps its own properties. -/
def JSObject.incrQuantity (acc : JSObject) (key : String) : JSObject :=
  acc.map (fun kv => if kv.1 = key then (kv.1, { kv.2 with quantity := kv.2.quantity + 1 }) else kv)

/-- Insertion of an entry into a list of indexed entries kept in ascending key order. -/
def insertByIndex (e : Nat × GroupedItem) : List (Nat × GroupedItem) → List (Nat × GroupedItem)
  | [] => [e]
  | x :: xs => if e.1 ≤ x.1 then e :: x :: xs else x :: insertByIndex e xs

/-- Ascending ordering of indexed entries. -/
def sortByIndex : List (Nat × GroupedItem) → List (Nat × GroupedItem)
  | [] => []
  | x :: xs => insertByIndex x (sortByIndex xs)

/-- The call `Object.values(obj)`: values of array-index keys in ascending
numeric order, then values of the other keys in creation order. -/
def objectValues (obj : JSObject) : List GroupedItem :=
  (sortByIndex (obj.filterMap (fun kv => (arrayIndex? kv.1).map (fun i => (i, kv.2))))).map Prod.snd
    ++ (obj.filter (fun kv => (arrayIndex? kv.1).isNone)).map Prod.snd

/-! ## Product rendering -/

/-- The card `renderProducts` builds for one product.  The name and the category
are written into the card as markup, and `updateProductButton` later reads the
heading back as text: `text` is the text content the HTML parser gives to a string
taken as markup.  The parser is not part of the script, so `text` is a parameter. -/
def makeCard (text : String → String) (product : Product) : ProductCard :=
  { nameText := text product.name
    categoryText := text product.category
    priceText := "$" ++ toFixed2 product.price
    addBtnDisplay := ""
    addedBtnDisplay := "none"
    quantityText := "0"
    imageBorder := "" }

/-- Embedding of `renderProducts`: stores the catalog and appends one card per product. -/
def renderProducts (text : String → String) (data : List Product) (s : Page) : Page :=
  data.foldl
    (fun st product => { st with productCards := st.productCards ++ [makeCard text product] })
    { s with productsData := data }

/-! ## Product button state -/

/-- Applies `f` to the first element satisfying `p`, if there is one. -/
def updateFirst {α : Type} (p : α → Bool) (f : α → α) : List α → List α
  | [] => []
  | a :: as => if p a then f a :: as else a :: updateFirst p f as

/-- The quantity `cart.filter(item => item.name === productName).length`. -/
def quantityOf (cart : List Product) (productName : String) : Nat :=
  (cart.filter (fun item => item.name = productName)).length

/-- The branch of `updateProductButton` applied to the card found. -/
def syncCard (quantity : Nat) (card : ProductCard) : ProductCard :=
  if quantity > 0 then
    { card with
      addBtnDisplay := "none"
      addedBtnDisplay := "flex"
      quantityText := toString quantity
      imageBorder := "2px solid var(--red)" }
  else
    { card with
      addBtnDisplay := "flex"
      addedBtnDisplay := "none"
      imageBorder := "none" }

/-- Embedding of `updateProductButton`: the first card whose name text is
`productName` is brought in line with the cart quantity; no card, no change. -/
def updateProductButton (productName : String) (s : Page) : Page :=
  { s with
    productCards :=
      updateFirst (fun card => card.nameText = productName)
        (syncCard (quantityOf s.cart productName)) s.productCards }

/-! ## Cart view -/

/-- Callback of the `reduce` in `updateCartUI`: create the group when
`acc[item.name]` is falsy, then increment `acc[item.name].quantity`. -/
def cartGroupStep (acc : JSObject) (item : Product) : JSObject :=
  JSObject.incrQuantity
    (if !acc.truthy item.name then acc ++ [(item.name, { item := item, quantity := 0 })] else acc)
    item.name

/-- The object `groupedItems` of `updateCartUI`. -/
def cartGroupedObject (cart : List Product) : JSObject :=
  cart.foldl cartGroupStep []

/-- The sequence `Object.values(groupedItems)` that `updateCartUI` walks. -/
def cartGroupedItems (cart : List Product) : List GroupedItem :=
  objectValues (cartGroupedObject cart)

/-- The `.cart-item` element built for one grouped item. -/
def makeCartItem (g : GroupedItem) : CartItemEl :=
  { nameText := g.name
    quantityText := toString g.quantity ++ "x"
    priceText := "@ $" ++ toFixed2 g.price
    totalText := "$" ++ toFixed2 g.itemTotal
    removeName := g.name }

/-- The `forEach` of `updateCartUI`: elements appended so far and running `total`. -/
def cartForEach (items : List GroupedItem) : List CartItemEl × Nat :=
  items.foldl (fun st g => (st.1 ++ [makeCartItem g], st.2 + g.itemTotal)) ([], 0)

/-- The number `total` of `updateCartUI` for a cart. -/
def cartTotal (cart : List Product) : Nat :=
  (cartForEach (cartGroupedItems cart)).2

/-- Embedding of `updateCartUI`. -/
def updateCartUI (s : Page) : Page :=
  let s1 := { s with cartItemsContainer := [], cartCount := toString s.cart.length }
  if s.cart.length = 0 then
    { s1 with cartEmptyDisplay := "flex", cartContentDisplay := "none" }
  else
    { s1 with
      cartEmptyDisplay := "none"
      cartContentDisplay := "flex"
      cartItemsContainer := (cartForEach (cartGroupedItems s.cart)).1
      cartTotalAmount := "$" ++ toFixed2 (cartTotal s.cart) }

/-! ## Cart operations -/

/-- Position of the first element satisfying `p` (`Array.prototype.findIndex`);
`none` stands for the result `-1`. -/
def findIndex {α : Type} (p : α → Bool) : List α → Option Nat
  | [] => none
  | a :: as => if p a then some 0 else (findIndex p as).map (· + 1)

/-- Embedding of `addToCart`. -/
def addToCart (product : Product) (s : Page) : Page :=
  updateProductButton product.name (updateCartUI { s with cart := s.cart ++ [product] })

/-- Embedding of `removeFromCart`. -/
def removeFromCart (productName : String) (s : Page) : Page :=
  match findIndex (fun item => item.name = productName) s.cart with
  | some index =>
    updateProductButton productName (updateCartUI { s with cart := s.cart.eraseIdx index })
  | none => s

/-- Embedding of `removeAllFromCart`. -/
def removeAllFromCart (productName : String) (s : Page) : Page :=
  updateProductButton productName
    (updateCartUI { s with cart := s.cart.filter (fun item => item.name ≠ productName) })

/-! ## Order confirmation -/

/-- Callback of the `reduce` in `showConfirmationModal`. -/
def modalGroupStep (acc : JSObject) (item : Product) : JSObject :=
  JSObject.incrQuantity
    (if !acc.truthy item.name then acc ++ [(item.name, { item := item, quantity := 0 })] else acc)
    item.name

/-- The sequence `Object.values(groupedItems)` that `showConfirmationModal` walks. -/
def modalGroupedItems (cart : List Product) : List GroupedItem :=
  objectValues (cart.foldl modalGroupStep [])

/-- The markup block built for one grouped item of the confirmation. -/
def makeConfirmItem (g : GroupedItem) : ConfirmItemEl :=
  { thumbnail := g.item.image.thumbnail
    nameText := g.name
    quantityText := toString g.quantity ++ "x"
    unitPriceText := "@ $" ++ toFixed2 g.price
    totalText := "$" ++ toFixed2 g.itemTotal }

/-- The `forEach` of `showConfirmationModal`: blocks of `itemsHTML` and running `total`. -/
def modalForEach (items : List GroupedItem) : List ConfirmItemEl × Nat :=
  items.foldl (fun st g => (st.1 ++ [makeConfirmItem g], st.2 + g.itemTotal)) ([], 0)

/-- The number `total` of `showConfirmationModal` for a cart. -/
def modalTotal (cart : List Product) : Nat :=
  (modalForEach (modalGroupedItems cart)).2

/-- Text of the empty-cart alert. -/
def emptyCartAlert : String :=
  "Your cart is empty. Please add some products before confirming your order."

/-- Embedding of `showConfirmationModal`. -/
def showConfirmationModal (s : Page) : Page :=
  if s.cart.length = 0 then
    { s with alerts := s.alerts ++ [emptyCartAlert] }
  else
    { s with
      confirmOrderContainer :=
        ConfirmContent.order (modalForEach (modalGroupedItems s.cart)).1
          ("$" ++ toFixed2 (modalTotal s.cart))
      confirmOrderModalActive := true }

/-- Embedding of `closeConfirmationModal`. -/
def closeConfirmationModal (s : Page) : Page :=
  { s with confirmOrderModalActive := false }

/-- Embedding of `resetCart`. -/
def resetCart (s : Page) : Page :=
  let s1 := updateCartUI { s with cart := [] }
  s1.productsData.foldl (fun st product => updateProductButton product.name st) s1

/-! ## Page load and event sequences -/

/-- The page before the catalog arrives: empty cart, no cards, static cart panel. -/
def initialPage (html : StaticHtml) : Page :=
  { cart := []
    productsData := []
    productCards := []
    cartItemsContainer := []
    cartCount := html.cartCount
    cartEmptyDisplay := html.cartEmptyDisplay
    cartContentDisplay := html.cartContentDisplay
    cartTotalAmount := html.cartTotalAmount
    confirmOrderContainer := ConfirmContent.static
    confirmOrderModalActive := false
    alerts := [] }

/-- The initialisation `fetchData().then(...)` once the catalog `data` is there. -/
def pageLoad (text : String → String) (html : StaticHtml) (data : List Product) : Page :=
  if data.length > 0 then renderProducts text data (initialPage html) else initialPage html

/-- A call of one of the cart operations. -/
inductive Op where
  | add (product : Product) : Op
  | remove (productName : String) : Op
  | removeAll (productName : String) : Op
  | reset : Op
deriving DecidableEq, Repr

/-- Effect of one call on the page. -/
def Op.apply : Op → Page → Page
  | Op.add product, s => addToCart product s
  | Op.remove productName, s => removeFromCart productName s
  | Op.removeAll productName, s => removeAllFromCart productName s
  | Op.reset, s => resetCart s

/-- Effect of a sequence of calls, first call first. -/
def run (ops : List Op) (s : Page) : Page :=
  ops.foldl (fun st op => op.apply st) s

/-! ## Notions the properties are stated with -/

/-- Entries of the cart that are the first entry of their name, in cart order. -/
def firstEntries : List Product → List Product
  | [] => []
  | a :: l => a :: (firstEntries l).filter (fun b => decide (b.name ≠ a.name))

/-- Own properties the grouping is compared with: one per first entry whose name
is no `Object.prototype` property, carrying the number of entries of that name. -/
def groupedReference (cart : List Product) : JSObject :=
  ((firstEntries cart).filter (fun p => decide (p.name ∉ protoKeys))).map
    (fun p => (p.name, { item := p, quantity := quantityOf cart p.name }))

/-- Number of `addToCart` calls of a sequence made for a product named `n`. -/
def addCalls (ops : List Op) (n : String) : Nat :=
  match ops with
  | [] => 0
  | Op.add product :: rest => (if product.name = n then 1 else 0) + addCalls rest n
  | _ :: rest => addCalls rest n

/-- Whether some `removeFromCart(n)` or `removeAllFromCart(n)` call of the sequence,
run from page `s`, found an entry named `n` in the cart at the moment it was made. -/
def removalFound (n : String) : List Op → Page → Bool
  | [], _ => false
  | op :: ops, s =>
    (decide (op = Op.remove n ∨ op = Op.removeAll n) && decide (0 < quantityOf s.cart n))
      || removalFound n ops (op.apply s)

/-- Position at which a name first occurs among the names of the cart entries
(the length of the cart when it does not occur). -/
def firstIndex (cart : List Product) (n : String) : Nat :=
  (cart.map Product.name).indexOf n

/-- The total display agrees with the cart whenever the cart is not empty. -/
def TotalShown (s : Page) : Prop :=
  s.cart ≠ [] →
    s.cartTotalAmount
      = "$" ++ toFixed2 ((cartGroupedItems s.cart).map (fun g => g.price * g.quantity)).sum ∧
    s.cartContentDisplay = "flex" ∧ s.cartEmptyDisplay = "none"

/-- The state `updateProductButton` prescribes for a card at cart quantity `q`:
above 0 the add control is hidden, the stepper is shown with `q` as its text and
the image carries the highlight border; at 0 the add control is shown, the stepper
is hidden and the image carries no highlight border. -/
def CardReflects (q : Nat) (card : ProductCard) : Prop :=
  (0 < q →
    card.addBtnDisplay = "none" ∧ card.addedBtnDisplay = "flex" ∧
      card.quantityText = toString q ∧ card.imageBorder = "2px solid var(--red)") ∧
  (q = 0 →
    card.addBtnDisplay ≠ "none" ∧ card.addedBtnDisplay = "none" ∧
      card.imageBorder ≠ "2px solid var(--red)")

/-- The zero state `updateProductButton` writes: add control at `flex`, stepper at
`none`, image border at `none`. -/
def CardZero (q : Nat) (card : ProductCard) : Prop :=
  q = 0 → card.addBtnDisplay = "flex" ∧ card.addedBtnDisplay = "none" ∧ card.imageBorder = "none"

/-- One card per catalog name, unique names, every card in step with the cart. -/
def CardsInStep (s : Page) : Prop :=
  s.productCards.map ProductCard.nameText = s.productsData.map Product.name ∧
    (s.productsData.map Product.name).Nodup ∧
    ∀ card ∈ s.productCards, CardReflects (quantityOf s.cart card.nameText) card

/-! ## Sample data of the scenarios -/

/-- Image references used by the sample products. -/
def sampleImage : Image := { thumbnail := "thumb.jpg", desktop := "desktop.jpg" }

/-- Product A of the scenario, at 5.00. -/
def productA : Product := { name := "A", category := "Cake", price := 500, image := sampleImage }

/-- Product B of the scenario, at 3.50. -/
def productB : Product := { name := "B", category := "Pie", price := 350, image := sampleImage }

/-- Decoding of the character reference for the ampersand; every other character
is kept. -/
def decodeAmp : List Char → List Char
  | '&' :: 'a' :: 'm' :: 'p' :: ';' :: rest => '&' :: decodeAmp rest
  | c :: rest => c :: decodeAmp rest
  | [] => []

/-- The text function the examples are evaluated with: it turns the character
reference for the ampersand into an ampersand and keeps all other text, which is
what the HTML parser does with the names of the examples. -/
def sampleText (markup : String) : String := String.mk (decodeAmp markup.data)

/-- A catalog record whose name holds a character reference. -/
def productFish : Product :=
  { name := "Fish &amp; Chips", category := "Main", price := 1250, image := sampleImage }

/-- A static cart panel: badge 0, empty state shown, total 0.00. -/
def sampleHtml : StaticHtml :=
  { cartCount := "0", cartEmptyDisplay := "", cartContentDisplay := "none",
    cartTotalAmount := "$0.00" }

/-- A catalog record named like a property of `Object.prototype`. -/
def productConstructor : Product :=
  { name := "constructor", category := "Cake", price := 100, image := sampleImage }

/-- A catalog record whose name is the array index 1. -/
def productOne : Product :=
  { name := "1", category := "Cake", price := 100, image := sampleImage }

/-- A catalog record whose name is the array index 2. -/
def productTwo : Product :=
  { name := "2", category := "Pie", price := 200, image := sampleImage }

/-! ## The cart component of every operation -/

theorem updateCartUI_cart (s : Page) : (updateCartUI s).cart = s.cart := by
  unfold updateCartUI
  split <;> rfl

theorem updateProductButton_cart (n : String) (s : Page) :
    (updateProductButton n s).cart = s.cart := rfl

theorem addToCart_cart (p : Product) (s : Page) : (addToCart p s).cart = s.cart ++ [p] := by
  simp [addToCart, updateProductButton_cart, updateCartUI_cart]

theorem findIndex_eraseIdx {α : Type} (p : α → Bool) (l : List α) :
    (match findIndex p l with
      | some i => l.eraseIdx i
      | none => l) = l.eraseP p := by
  induction l with
  | nil => rfl
  | cons a as ih =>
    by_cases h : p a = true
    · simp [findIndex, h]
    · simp only [findIndex, h, List.eraseP_cons]
      cases hf : findIndex p as with
      | none =>
        rw [hf] at ih
        simpa using ih
      | some i =>
        rw [hf] at ih
        simpa using ih

theorem removeFromCart_cart (n : String) (s : Page) :
    (removeFromCart n s).cart = s.cart.eraseP (fun item => decide (item.name = n)) := by
  rw [← findIndex_eraseIdx]
  unfold removeFromCart
  cases findIndex (fun item => decide (item.name = n)) s.cart with
  | none => rfl
  | some i => simp only [updateProductButton_cart, updateCartUI_cart]

theorem removeAllFromCart_cart (n : String) (s : Page) :
    (removeAllFromCart n s).cart = s.cart.filter (fun item => decide (item.name ≠ n)) := by
  simp [removeAllFromCart, updateProductButton_cart, updateCartUI_cart]

theorem foldl_updateProductButton_cart (ps : List Product) (s : Page) :
    (ps.foldl (fun st product => updateProductButton product.name st) s).cart = s.cart := by
  induction ps generalizing s with
  | nil => rfl
  | cons p ps ih => simp [List.foldl_cons, ih, updateProductButton_cart]

theorem resetCart_cart (s : Page) : (resetCart s).cart = [] := by
  simp [resetCart, foldl_updateProductButton_cart, updateCartUI_cart]

/-! ## Quantities -/

theorem quantityOf_nil (n : String) : quantityOf [] n = 0 := rfl

theorem quantityOf_cons (a : Product) (l : List Product) (n : String) :
    quantityOf (a :: l) n = (if a.name = n then 1 else 0) + quantityOf l n := by
  unfold quantityOf
  by_cases h : a.name = n <;> simp [List.filter_cons, h, Nat.add_comm]

theorem quantityOf_append (l₁ l₂ : List Product) (n : String) :
    quantityOf (l₁ ++ l₂) n = quantityOf l₁ n + quantityOf l₂ n := by
  simp [quantityOf, List.filter_append]

theorem quantityOf_eq_zero_of_forall (l : List Product) (n : String)
    (h : ∀ b ∈ l, b.name ≠ n) : quantityOf l n = 0 := by
  induction l with
  | nil => rfl
  | cons a as ih =>
    have ha : a.name ≠ n := h a (List.mem_cons_self _ _)
    rw [quantityOf_cons, ih (fun b hb => h b (List.mem_cons_of_mem _ hb))]
    simp [ha]

theorem quantityOf_filter_ne (l : List Product) (n m : String) :
    quantityOf (l.filter (fun item => decide (item.name ≠ n))) m
      = if m = n then 0 else quantityOf l m := by
  induction l with
  | nil => simp [quantityOf_nil]
  | cons a as ih =>
    by_cases ha : a.name = n
    · by_cases hm : m = n
      · simp [List.filter_cons, ha, hm] at ih ⊢
        exact ih
      · have : ¬ n = m := fun h => hm h.symm
        simp [List.filter_cons, ha, hm, quantityOf_cons, this] at ih ⊢
        exact ih
    · by_cases hm : m = n
      · have : ¬ a.name = m := fun h => ha (h.trans hm)
        simp [List.filter_cons, ha, hm, quantityOf_cons] at ih ⊢
        exact ih
      · simp [List.filter_cons, ha, hm, quantityOf_cons] at ih ⊢
        rw [ih]

/-! ## The grouping, characterised

The object built by the `reduce` is compared with `groupedReference`, which is
built from the first entries of each name. -/

theorem firstEntries_cons (a : Product) (l : List Product) :
    firstEntries (a :: l) = a :: (firstEntries l).filter (fun b => decide (b.name ≠ a.name)) := rfl

theorem mem_of_mem_firstEntries (l : List Product) (p : Product) (h : p ∈ firstEntries l) :
    p ∈ l := by
  induction l with
  | nil => simp [firstEntries] at h
  | cons a l ih =>
    rw [firstEntries_cons, List.mem_cons, List.mem_filter] at h
    rcases h with rfl | ⟨h, _⟩
    · exact List.mem_cons_self _ _
    · exact List.mem_cons_of_mem _ (ih h)

theorem mem_firstEntries_name (l : List Product) (k : String) :
    (∃ p ∈ firstEntries l, p.name = k) ↔ (∃ b ∈ l, b.name = k) := by
  induction l with
  | nil => simp [firstEntries]
  | cons a l ih =>
    constructor
    · rintro ⟨p, hp, hk⟩
      simp only [firstEntries, List.mem_cons, List.mem_filter] at hp
      rcases hp with rfl | ⟨hp, _⟩
      · exact ⟨p, List.mem_cons_self _ _, hk⟩
      · obtain ⟨b, hb, hbk⟩ := ih.mp ⟨p, hp, hk⟩
        exact ⟨b, List.mem_cons_of_mem _ hb, hbk⟩
    · rintro ⟨b, hb, hk⟩
      by_cases ha : a.name = k
      · exact ⟨a, by simp [firstEntries], ha⟩
      · rcases List.mem_cons.mp hb with rfl | hb
        · exact absurd hk ha
        · obtain ⟨p, hp, hpk⟩ := ih.mpr ⟨b, hb, hk⟩
          refine ⟨p, ?_, hpk⟩
          simp only [firstEntries, List.mem_cons, List.mem_filter]
          right
          refine ⟨hp, ?_⟩
          simp only [decide_eq_true_eq]
          rw [hpk]
          exact fun h => ha h.symm

theorem firstEntries_append_singleton (l : List Product) (x : Product) :
    firstEntries (l ++ [x])
      = if ∃ b ∈ l, b.name = x.name then firstEntries l else firstEntries l ++ [x] := by
  induction l with
  | nil => simp [firstEntries]
  | cons a l ih =>
    rw [List.cons_append, firstEntries_cons, firstEntries_cons, ih]
    by_cases ha : a.name = x.name
    · have h1 : ∃ b ∈ a :: l, b.name = x.name := ⟨a, List.mem_cons_self _ _, ha⟩
      rw [if_pos h1]
      split
      · rfl
      · simp [List.filter_append, ha]
    · by_cases hl : ∃ b ∈ l, b.name = x.name
      · have h1 : ∃ b ∈ a :: l, b.name = x.name := by
          obtain ⟨b, hb, hbx⟩ := hl
          exact ⟨b, List.mem_cons_of_mem _ hb, hbx⟩
        rw [if_pos hl, if_pos h1]
      · have h1 : ¬ ∃ b ∈ a :: l, b.name = x.name := by
          rintro ⟨b, hb, hbx⟩
          rcases List.mem_cons.mp hb with rfl | hb
          · exact ha hbx
          · exact hl ⟨b, hb, hbx⟩
        rw [if_neg hl, if_neg h1]
        have : ¬ x.name = a.name := fun h => ha h.symm
        simp [List.filter_append, this]

theorem lookup_map_isSome (G : List Product) (f : Product → GroupedItem) (k : String) :
    ((G.map (fun p => (p.name, f p))).lookup k).isSome = true ↔ ∃ p ∈ G, p.name = k := by
  induction G with
  | nil => simp
  | cons a G ih =>
    by_cases h : k = a.name
    · subst h
      simp [List.lookup_cons]
    · have h2 : (k == a.name) = false := by simpa using h
      have h3 : ¬ a.name = k := fun e => h e.symm
      simp only [List.map_cons, List.lookup_cons, h2, ih, List.mem_cons, exists_eq_or_imp, h3,
        false_or]

theorem incrQuantity_map (G : List Product) (q : Product → Nat) (k : String) :
    JSObject.incrQuantity (G.map (fun p => (p.name, { item := p, quantity := q p }))) k
      = G.map (fun p => (p.name,
          { item := p, quantity := if p.name = k then q p + 1 else q p })) := by
  unfold JSObject.incrQuantity
  rw [List.map_map]
  apply List.map_congr_left
  intro p _
  by_cases h : p.name = k <;> simp [h]

theorem groupedReference_truthy (l : List Product) (k : String) :
    (groupedReference l).truthy k = true ↔ (k ∈ protoKeys ∨ ∃ b ∈ l, b.name = k) := by
  unfold JSObject.truthy groupedReference
  rw [Bool.or_eq_true, lookup_map_isSome, decide_eq_true_eq]
  constructor
  · rintro (⟨p, hp, hk⟩ | h)
    · right
      exact (mem_firstEntries_name l k).mp ⟨p, (List.mem_filter.mp hp).1, hk⟩
    · exact Or.inl h
  · rintro (h | h)
    · exact Or.inr h
    · by_cases hk : k ∈ protoKeys
      · exact Or.inr hk
      · left
        obtain ⟨p, hp, hpk⟩ := (mem_firstEntries_name l k).mpr h
        refine ⟨p, List.mem_filter.mpr ⟨hp, ?_⟩, hpk⟩
        rw [decide_eq_true_eq, hpk]
        exact hk

theorem cartGroupStep_create (l : List Product) (x : Product) :
    (if !(groupedReference l).truthy x.name then
        groupedReference l ++ [(x.name, { item := x, quantity := 0 })]
      else groupedReference l)
      = ((firstEntries (l ++ [x])).filter (fun p => decide (p.name ∉ protoKeys))).map
          (fun p => (p.name, { item := p, quantity := quantityOf l p.name })) := by
  rw [firstEntries_append_singleton]
  by_cases hp : x.name ∈ protoKeys
  · have ht : (groupedReference l).truthy x.name = true :=
      (groupedReference_truthy l x.name).mpr (Or.inl hp)
    rw [ht]
    simp only [Bool.not_true, Bool.false_eq_true, if_false]
    by_cases hl : ∃ b ∈ l, b.name = x.name
    · rw [if_pos hl]
      simp [groupedReference]
    · rw [if_neg hl]
      simp [groupedReference, List.filter_append, hp]
  · by_cases hl : ∃ b ∈ l, b.name = x.name
    · have ht : (groupedReference l).truthy x.name = true :=
        (groupedReference_truthy l x.name).mpr (Or.inr hl)
      rw [ht, if_pos hl]
      simp [groupedReference]
    · have ht : (groupedReference l).truthy x.name = false := by
        rw [Bool.eq_false_iff]
        intro h
        rcases (groupedReference_truthy l x.name).mp h with h | h
        · exact hp h
        · exact hl h
      have hq : quantityOf l x.name = 0 :=
        quantityOf_eq_zero_of_forall l x.name (fun b hb e => hl ⟨b, hb, e⟩)
      rw [ht, if_neg hl]
      simp [groupedReference, List.filter_append, hp, hq]

/-- The object built by the `reduce` of `updateCartUI` is the reference grouping. -/
theorem cartGroupedObject_eq (cart : List Product) :
    cartGroupedObject cart = groupedReference cart := by
  induction cart using List.reverseRecOn with
  | nil => rfl
  | append_singleton l x ih =>
    have hstep : cartGroupedObject (l ++ [x]) = cartGroupStep (cartGroupedObject l) x := by
      simp [cartGroupedObject, List.foldl_append]
    rw [hstep, ih]
    unfold cartGroupStep
    rw [cartGroupStep_create, incrQuantity_map]
    unfold groupedReference
    apply List.map_congr_left
    intro p _
    have hq : quantityOf (l ++ [x]) p.name
        = quantityOf l p.name + (if x.name = p.name then 1 else 0) := by
      rw [quantityOf_append, quantityOf_cons, quantityOf_nil, Nat.add_zero]
    rw [hq]
    by_cases h : p.name = x.name
    · simp [h]
    · have h2 : ¬ x.name = p.name := fun e => h e.symm
      simp [h, h2]

/-! ## Enumeration of the grouped object -/

theorem mem_insertByIndex (e x : Nat × GroupedItem) (l : List (Nat × GroupedItem)) :
    x ∈ insertByIndex e l ↔ x = e ∨ x ∈ l := by
  induction l with
  | nil => simp [insertByIndex]
  | cons y ys ih =>
    unfold insertByIndex
    split
    · simp
    · simp only [List.mem_cons, ih]
      tauto

theorem mem_sortByIndex (x : Nat × GroupedItem) (l : List (Nat × GroupedItem)) :
    x ∈ sortByIndex l ↔ x ∈ l := by
  induction l with
  | nil => simp [sortByIndex]
  | cons y ys ih =>
    unfold sortByIndex
    rw [mem_insertByIndex, ih, List.mem_cons]

theorem mem_objectValues (obj : JSObject) (g : GroupedItem) :
    g ∈ objectValues obj ↔ ∃ k, (k, g) ∈ obj := by
  unfold objectValues
  rw [List.mem_append, List.mem_map, List.mem_map]
  constructor
  · rintro (⟨⟨i, g2⟩, hm, rfl⟩ | ⟨⟨k, g2⟩, hm, rfl⟩)
    · rw [mem_sortByIndex, List.mem_filterMap] at hm
      obtain ⟨⟨k, g3⟩, hk, he⟩ := hm
      cases hi : arrayIndex? k with
      | none => simp [hi] at he
      | some j =>
        rw [hi] at he
        simp only [Option.map_some', Option.some.injEq, Prod.mk.injEq] at he
        exact ⟨k, he.2 ▸ hk⟩
    · exact ⟨k, (List.mem_filter.mp hm).1⟩
  · rintro ⟨k, hk⟩
    cases hi : arrayIndex? k with
    | none =>
      right
      exact ⟨(k, g), List.mem_filter.mpr ⟨hk, by simp [hi]⟩, rfl⟩
    | some j =>
      left
      refine ⟨(j, g), ?_, rfl⟩
      rw [mem_sortByIndex, List.mem_filterMap]
      exact ⟨(k, g), hk, by simp [hi]⟩

theorem objectValues_of_no_index (obj : JSObject)
    (h : ∀ kv ∈ obj, arrayIndex? kv.1 = none) : objectValues obj = obj.map Prod.snd := by
  unfold objectValues
  have h1 : obj.filterMap (fun kv => (arrayIndex? kv.1).map (fun i => (i, kv.2))) = [] := by
    rw [List.filterMap_eq_nil_iff]
    intro kv hkv
    simp [h kv hkv]
  have h2 : obj.filter (fun kv => (arrayIndex? kv.1).isNone) = obj := by
    rw [List.filter_eq_self]
    intro kv hkv
    simp [h kv hkv]
  rw [h1, h2]
  rfl

/-- Every grouped item the cart view walks stems from the cart: it carries a cart
entry, under that entry's name, with the number of entries of that name. -/
theorem mem_cartGroupedItems (cart : List Product) (g : GroupedItem)
    (hg : g ∈ cartGroupedItems cart) :
    g.item ∈ cart ∧ g.name ∉ protoKeys ∧ g.quantity = quantityOf cart g.name := by
  unfold cartGroupedItems at hg
  rw [mem_objectValues, cartGroupedObject_eq] at hg
  obtain ⟨k, hk⟩ := hg
  unfold groupedReference at hk
  rw [List.mem_map] at hk
  obtain ⟨p, hp, he⟩ := hk
  rw [List.mem_filter, decide_eq_true_eq] at hp
  obtain ⟨b, hb, hbn⟩ := (mem_firstEntries_name cart p.name).mp ⟨p, hp.1, rfl⟩
  have hg2 : g = { item := p, quantity := quantityOf cart p.name } := (Prod.mk.inj he).2.symm
  subst hg2
  exact ⟨mem_of_mem_firstEntries cart p hp.1, hp.2, rfl⟩

theorem cartForEach_fst (items : List GroupedItem) :
    (cartForEach items).1 = items.map makeCartItem := by
  unfold cartForEach
  induction items using List.reverseRecOn with
  | nil => rfl
  | append_singleton l x ih => simp [List.foldl_append, ih]

theorem cartForEach_snd (items : List GroupedItem) :
    (cartForEach items).2 = (items.map GroupedItem.itemTotal).sum := by
  unfold cartForEach
  induction items using List.reverseRecOn with
  | nil => rfl
  | append_singleton l x ih => simp [List.foldl_append, ih]

/-! ## Removal of one unit -/

theorem findIndex_eq_none {α : Type} (p : α → Bool) (l : List α)
    (h : ∀ x ∈ l, p x = false) : findIndex p l = none := by
  induction l with
  | nil => rfl
  | cons a as ih =>
    have ha : p a = false := h a (List.mem_cons_self _ _)
    simp [findIndex, ha, ih (fun x hx => h x (List.mem_cons_of_mem _ hx))]

theorem quantityOf_eraseP (l : List Product) (n m : String) :
    quantityOf (l.eraseP (fun item => decide (item.name = m))) n
      = if m = n then quantityOf l n - 1 else quantityOf l n := by
  induction l with
  | nil => simp [quantityOf_nil]
  | cons a as ih =>
    by_cases ha : a.name = m
    · have he : (a :: as).eraseP (fun item => decide (item.name = m)) = as := by
        simp [List.eraseP_cons, ha]
      rw [he, quantityOf_cons]
      by_cases hmn : m = n
      · have : a.name = n := ha.trans hmn
        simp [hmn, this]
      · have : ¬ a.name = n := fun e => hmn (ha.symm.trans e)
        simp [hmn, this]
    · have he : (a :: as).eraseP (fun item => decide (item.name = m))
          = a :: as.eraseP (fun item => decide (item.name = m)) := by
        simp [List.eraseP_cons, ha]
      rw [he, quantityOf_cons, quantityOf_cons, ih]
      by_cases hmn : m = n
      · have : ¬ a.name = n := fun e => ha (e.trans hmn.symm)
        simp [hmn, this]
      · simp [hmn]

/-! ## Calls counted in a sequence -/

theorem run_cons (op : Op) (ops : List Op) (s : Page) :
    run (op :: ops) s = run ops (op.apply s) := rfl

theorem quantityOf_apply_le (op : Op) (s : Page) (n : String) :
    quantityOf (op.apply s).cart n + addCalls [] n ≤ quantityOf s.cart n + addCalls [op] n := by
  cases op with
  | add product =>
    simp only [Op.apply, addToCart_cart, quantityOf_append, quantityOf_cons, quantityOf_nil,
      addCalls]
    omega
  | remove m =>
    simp only [Op.apply, removeFromCart_cart, quantityOf_eraseP, addCalls]
    split <;> omega
  | removeAll m =>
    simp only [Op.apply, removeAllFromCart_cart, quantityOf_filter_ne, addCalls]
    split <;> omega
  | reset =>
    simp only [Op.apply, resetCart_cart, quantityOf_nil, addCalls]
    omega

theorem quantityOf_apply_eq (op : Op) (s : Page) (n : String)
    (h1 : op ≠ Op.reset) (h2 : op ≠ Op.remove n) (h3 : op ≠ Op.removeAll n) :
    quantityOf (op.apply s).cart n = quantityOf s.cart n + addCalls [op] n := by
  cases op with
  | add product =>
    simp only [Op.apply, addToCart_cart, quantityOf_append, quantityOf_cons, quantityOf_nil,
      addCalls]
  | remove m =>
    have hm : ¬ m = n := fun e => h2 (by rw [e])
    simp [Op.apply, removeFromCart_cart, quantityOf_eraseP, addCalls, hm]
  | removeAll m =>
    have hm : ¬ n = m := fun e => h3 (by rw [e])
    simp only [Op.apply, removeAllFromCart_cart, quantityOf_filter_ne, addCalls, if_neg hm,
      Nat.add_zero]
  | reset => exact absurd rfl h1

theorem addCalls_cons (op : Op) (ops : List Op) (n : String) :
    addCalls (op :: ops) n = addCalls [op] n + addCalls ops n := by
  cases op <;> simp [addCalls]

theorem quantityOf_run_le (ops : List Op) (s : Page) (n : String) :
    quantityOf (run ops s).cart n ≤ quantityOf s.cart n + addCalls ops n := by
  induction ops generalizing s with
  | nil => simp [run, addCalls]
  | cons op ops ih =>
    have h1 := ih (op.apply s)
    have h2 := quantityOf_apply_le op s n
    rw [run_cons, addCalls_cons]
    simp only [addCalls] at h2
    omega

theorem quantityOf_run_eq (ops : List Op) (s : Page) (n : String)
    (h : ∀ op ∈ ops, op ≠ Op.reset ∧ op ≠ Op.remove n ∧ op ≠ Op.removeAll n) :
    quantityOf (run ops s).cart n = quantityOf s.cart n + addCalls ops n := by
  induction ops generalizing s with
  | nil => simp [run, addCalls]
  | cons op ops ih =>
    have hop := h op (List.mem_cons_self _ _)
    rw [run_cons, addCalls_cons, ih (op.apply s) (fun o ho => h o (List.mem_cons_of_mem _ ho)),
      quantityOf_apply_eq op s n hop.1 hop.2.1 hop.2.2, Nat.add_assoc]

theorem quantityOf_apply_eq_of_not_found (op : Op) (s : Page) (n : String)
    (h1 : op ≠ Op.reset)
    (h2 : ¬ ((op = Op.remove n ∨ op = Op.removeAll n) ∧ 0 < quantityOf s.cart n)) :
    quantityOf (op.apply s).cart n = quantityOf s.cart n + addCalls [op] n := by
  by_cases hrem : op = Op.remove n ∨ op = Op.removeAll n
  · have hq : quantityOf s.cart n = 0 := by
      have : ¬ 0 < quantityOf s.cart n := fun hpos => h2 ⟨hrem, hpos⟩
      omega
    rcases hrem with rfl | rfl
    · simp only [Op.apply, removeFromCart_cart, quantityOf_eraseP, addCalls, if_true, hq]
    · simp only [Op.apply, removeAllFromCart_cart, quantityOf_filter_ne, addCalls, if_true, hq]
  · exact quantityOf_apply_eq op s n h1 (fun e => hrem (Or.inl e)) (fun e => hrem (Or.inr e))

theorem quantityOf_apply_lt_of_found (op : Op) (s : Page) (n : String)
    (h : (op = Op.remove n ∨ op = Op.removeAll n) ∧ 0 < quantityOf s.cart n) :
    quantityOf (op.apply s).cart n < quantityOf s.cart n + addCalls [op] n := by
  obtain ⟨hrem, hpos⟩ := h
  rcases hrem with rfl | rfl
  · simp only [Op.apply, removeFromCart_cart, quantityOf_eraseP, addCalls, if_true]
    omega
  · simp only [Op.apply, removeAllFromCart_cart, quantityOf_filter_ne, addCalls, if_true]
    omega

theorem removalFound_cons (n : String) (op : Op) (ops : List Op) (s : Page) :
    removalFound n (op :: ops) s
      = ((decide (op = Op.remove n ∨ op = Op.removeAll n) && decide (0 < quantityOf s.cart n))
          || removalFound n ops (op.apply s)) := rfl

/-- Over a sequence without `resetCart`, the quantity of `n` grows by exactly the
number of `addToCart` calls for `n` if and only if no removal call of `n` found an
entry named `n`. -/
theorem quantityOf_run_eq_iff (ops : List Op) (s : Page) (n : String)
    (hops : ∀ op ∈ ops, op ≠ Op.reset) :
    quantityOf (run ops s).cart n = quantityOf s.cart n + addCalls ops n
      ↔ removalFound n ops s = false := by
  induction ops generalizing s with
  | nil => simp [run, addCalls, removalFound]
  | cons op ops ih =>
    have hop := hops op (List.mem_cons_self _ _)
    have hrest : ∀ o ∈ ops, o ≠ Op.reset := fun o ho => hops o (List.mem_cons_of_mem _ ho)
    rw [run_cons, addCalls_cons, removalFound_cons]
    by_cases hf : (op = Op.remove n ∨ op = Op.removeAll n) ∧ 0 < quantityOf s.cart n
    · have hlt := quantityOf_apply_lt_of_found op s n hf
      have hle := quantityOf_run_le ops (op.apply s) n
      have hd : (decide (op = Op.remove n ∨ op = Op.removeAll n)
          && decide (0 < quantityOf s.cart n)) = true := by
        simp [hf.1, hf.2]
      rw [hd, Bool.true_or]
      constructor
      · intro he
        omega
      · intro he
        exact absurd he (by decide)
    · have heq := quantityOf_apply_eq_of_not_found op s n hop hf
      have hd : (decide (op = Op.remove n ∨ op = Op.removeAll n)
          && decide (0 < quantityOf s.cart n)) = false := by
        rw [← Bool.not_eq_true, Bool.and_eq_true, decide_eq_true_eq, decide_eq_true_eq]
        exact hf
      rw [hd, Bool.false_or, ← ih (op.apply s) hrest, heq, Nat.add_assoc]

/-! ## What `updateCartUI` writes -/

theorem updateCartUI_cartItemsContainer (s : Page) :
    (updateCartUI s).cartItemsContainer = (cartGroupedItems s.cart).map makeCartItem := by
  unfold updateCartUI
  split
  · next h =>
    have hc : s.cart = [] := List.length_eq_zero.mp h
    simp only [hc]
    rfl
  · simp only [cartForEach_fst]

theorem updateProductButton_cartItemsContainer (n : String) (s : Page) :
    (updateProductButton n s).cartItemsContainer = s.cartItemsContainer := rfl

theorem updateCartUI_cartCount (s : Page) :
    (updateCartUI s).cartCount = toString s.cart.length := by
  unfold updateCartUI
  split <;> rfl

theorem updateCartUI_cartTotalAmount (s : Page) (h : s.cart ≠ []) :
    (updateCartUI s).cartTotalAmount = "$" ++ toFixed2 (cartTotal s.cart) := by
  unfold updateCartUI
  have h2 : ¬ s.cart.length = 0 := fun e => h (List.length_eq_zero.mp e)
  simp only [h2, if_false]

/-! ## Order of the grouped items -/

theorem firstIndex_cons_self (a : Product) (l : List Product) :
    firstIndex (a :: l) a.name = 0 := by
  unfold firstIndex
  rw [List.map_cons, List.indexOf_cons_self]

theorem firstIndex_cons_ne (a : Product) (l : List Product) (n : String) (h : n ≠ a.name) :
    firstIndex (a :: l) n = firstIndex l n + 1 := by
  unfold firstIndex
  rw [List.map_cons, List.indexOf_cons_ne _ (fun e => h e.symm)]

theorem pairwise_firstEntries (cart : List Product) :
    List.Pairwise (fun p q => firstIndex cart p.name < firstIndex cart q.name)
      (firstEntries cart) := by
  induction cart with
  | nil => simp [firstEntries]
  | cons a l ih =>
    rw [firstEntries_cons, List.pairwise_cons]
    constructor
    · intro q hq
      have hqa : q.name ≠ a.name := by simpa using (List.mem_filter.mp hq).2
      rw [firstIndex_cons_self, firstIndex_cons_ne a l q.name hqa]
      exact Nat.succ_pos _
    · refine List.Pairwise.imp_of_mem ?_ (List.Pairwise.filter _ ih)
      intro p q hp hq hpq
      have hpa : p.name ≠ a.name := by simpa using (List.mem_filter.mp hp).2
      have hqa : q.name ≠ a.name := by simpa using (List.mem_filter.mp hq).2
      rw [firstIndex_cons_ne a l p.name hpa, firstIndex_cons_ne a l q.name hqa]
      exact Nat.succ_lt_succ hpq

theorem groupedReference_key_mem (cart : List Product) (kv : String × GroupedItem)
    (h : kv ∈ groupedReference cart) : ∃ b ∈ cart, b.name = kv.1 := by
  unfold groupedReference at h
  rw [List.mem_map] at h
  obtain ⟨p, hp, rfl⟩ := h
  exact ⟨p, mem_of_mem_firstEntries cart p (List.mem_filter.mp hp).1, rfl⟩

/-- With no array-index name in the cart, the cart view walks the reference
grouping in its own order. -/
theorem cartGroupedItems_of_no_index (cart : List Product)
    (h : ∀ item ∈ cart, arrayIndex? item.name = none) :
    cartGroupedItems cart
      = ((firstEntries cart).filter (fun p => decide (p.name ∉ protoKeys))).map
          (fun p => { item := p, quantity := quantityOf cart p.name }) := by
  unfold cartGroupedItems
  rw [cartGroupedObject_eq, objectValues_of_no_index]
  · unfold groupedReference
    rw [List.map_map]
    rfl
  · intro kv hkv
    obtain ⟨b, hb, hbn⟩ := groupedReference_key_mem cart kv hkv
    rw [← hbn]
    exact h b hb

theorem modalGroupedItems_eq (cart : List Product) :
    modalGroupedItems cart = cartGroupedItems cart := rfl

theorem modalForEach_fst (items : List GroupedItem) :
    (modalForEach items).1 = items.map makeConfirmItem := by
  unfold modalForEach
  induction items using List.reverseRecOn with
  | nil => rfl
  | append_singleton l x ih => simp [List.foldl_append, ih]

theorem modalForEach_snd (items : List GroupedItem) :
    (modalForEach items).2 = (items.map GroupedItem.itemTotal).sum := by
  unfold modalForEach
  induction items using List.reverseRecOn with
  | nil => rfl
  | append_singleton l x ih => simp [List.foldl_append, ih]

/-! ## Order of the array-index names -/

theorem insertByIndex_sorted (e : Nat × GroupedItem) (l : List (Nat × GroupedItem))
    (h : List.Pairwise (fun a b => a.1 ≤ b.1) l) :
    List.Pairwise (fun a b => a.1 ≤ b.1) (insertByIndex e l) := by
  induction l with
  | nil => simp [insertByIndex]
  | cons x xs ih =>
    rw [List.pairwise_cons] at h
    unfold insertByIndex
    split
    · next hle =>
      rw [List.pairwise_cons]
      refine ⟨?_, List.pairwise_cons.mpr h⟩
      intro a ha
      rcases List.mem_cons.mp ha with rfl | ha
      · exact hle
      · exact Nat.le_trans hle (h.1 a ha)
    · next hle =>
      rw [List.pairwise_cons]
      refine ⟨?_, ih h.2⟩
      intro a ha
      rcases (mem_insertByIndex e a xs).mp ha with rfl | ha
      · exact Nat.le_of_lt (Nat.lt_of_not_le hle)
      · exact h.1 a ha

theorem sortByIndex_sorted (l : List (Nat × GroupedItem)) :
    List.Pairwise (fun a b => a.1 ≤ b.1) (sortByIndex l) := by
  induction l with
  | nil => simp [sortByIndex]
  | cons x xs ih =>
    unfold sortByIndex
    exact insertByIndex_sorted x _ ih

theorem groupedReference_key_eq (cart : List Product) (kv : String × GroupedItem)
    (h : kv ∈ groupedReference cart) : kv.2.name = kv.1 := by
  unfold groupedReference at h
  rw [List.mem_map] at h
  obtain ⟨p, _, rfl⟩ := h
  rfl

/-- The items of the cart view whose names are array indices, as `Object.values`
lists them. -/
theorem indexPart_sorted (cart : List Product) :
    (∀ g ∈ (sortByIndex ((groupedReference cart).filterMap
        (fun kv => (arrayIndex? kv.1).map (fun i => (i, kv.2))))).map Prod.snd,
      ∃ i, arrayIndex? g.name = some i) ∧
    List.Pairwise
      (fun g h => ∀ i j, arrayIndex? g.name = some i → arrayIndex? h.name = some j → i ≤ j)
      ((sortByIndex ((groupedReference cart).filterMap
        (fun kv => (arrayIndex? kv.1).map (fun i => (i, kv.2))))).map Prod.snd) := by
  have hmem : ∀ e ∈ sortByIndex ((groupedReference cart).filterMap
      (fun kv => (arrayIndex? kv.1).map (fun i => (i, kv.2)))),
      arrayIndex? e.2.name = some e.1 := by
    intro e he
    rw [mem_sortByIndex, List.mem_filterMap] at he
    obtain ⟨kv, hkv, hmap⟩ := he
    have hname := groupedReference_key_eq cart kv hkv
    cases hi : arrayIndex? kv.1 with
    | none => simp [hi] at hmap
    | some i =>
      rw [hi] at hmap
      simp only [Option.map_some', Option.some.injEq] at hmap
      subst hmap
      show arrayIndex? kv.2.name = some i
      rw [hname, hi]
  constructor
  · intro g hg
    rw [List.mem_map] at hg
    obtain ⟨e, he, rfl⟩ := hg
    exact ⟨e.1, hmem e he⟩
  · rw [List.pairwise_map]
    refine List.Pairwise.imp_of_mem ?_ (sortByIndex_sorted _)
    intro a b ha hb hab i j hi hj
    rw [hmem a ha] at hi
    rw [hmem b hb] at hj
    have h1 : a.1 = i := Option.some.inj hi
    have h2 : b.1 = j := Option.some.inj hj
    omega

/-- The items of the cart view whose names are no array indices, as
`Object.values` lists them. -/
theorem namePart_first_seen (cart : List Product) :
    (∀ g ∈ ((groupedReference cart).filter (fun kv => (arrayIndex? kv.1).isNone)).map Prod.snd,
      arrayIndex? g.name = none) ∧
    List.Pairwise (fun g h => firstIndex cart g.name < firstIndex cart h.name)
      (((groupedReference cart).filter (fun kv => (arrayIndex? kv.1).isNone)).map Prod.snd) := by
  constructor
  · intro g hg
    rw [List.mem_map] at hg
    obtain ⟨kv, hkv, rfl⟩ := hg
    rw [List.mem_filter] at hkv
    rw [groupedReference_key_eq cart kv hkv.1]
    exact Option.isNone_iff_eq_none.mp hkv.2
  · unfold groupedReference
    rw [List.filter_map, List.map_map, List.pairwise_map]
    exact List.Pairwise.filter _ (List.Pairwise.filter _ (pairwise_firstEntries cart))

/-! ## Completeness of the grouping for names outside `Object.prototype` -/

theorem insertByIndex_perm (e : Nat × GroupedItem) (l : List (Nat × GroupedItem)) :
    (insertByIndex e l).Perm (e :: l) := by
  induction l with
  | nil => exact List.Perm.refl _
  | cons x xs ih =>
    unfold insertByIndex
    split
    · exact List.Perm.refl _
    · exact ((List.Perm.cons x ih).trans (List.Perm.swap e x xs))

theorem sortByIndex_perm (l : List (Nat × GroupedItem)) : (sortByIndex l).Perm l := by
  induction l with
  | nil => exact List.Perm.refl _
  | cons x xs ih =>
    unfold sortByIndex
    exact (insertByIndex_perm x _).trans (List.Perm.cons x ih)

theorem objectValues_perm (obj : JSObject) : (objectValues obj).Perm (obj.map Prod.snd) := by
  unfold objectValues
  refine (List.Perm.append_right _ ((sortByIndex_perm _).map Prod.snd)).trans ?_
  induction obj with
  | nil => exact List.Perm.refl _
  | cons kv rest ih =>
    cases hi : arrayIndex? kv.1 with
    | none =>
      simp only [List.filterMap_cons, hi, Option.map_none', List.filter_cons, Option.isNone_none,
        if_true, List.map_cons]
      exact List.perm_middle.trans (List.Perm.cons _ ih)
    | some i =>
      simp only [List.filterMap_cons, hi, Option.map_some', List.filter_cons,
        Option.isNone_some, Bool.false_eq_true, if_false, List.map_cons, List.cons_append]
      exact List.Perm.cons _ ih

theorem quantityOf_firstEntries (cart : List Product) (n : String) :
    quantityOf (firstEntries cart) n = if ∃ b ∈ cart, b.name = n then 1 else 0 := by
  induction cart with
  | nil => simp [firstEntries, quantityOf_nil]
  | cons a l ih =>
    rw [firstEntries_cons, quantityOf_cons]
    by_cases ha : a.name = n
    · have h1 : ∃ b ∈ a :: l, b.name = n := ⟨a, List.mem_cons_self _ _, ha⟩
      rw [if_pos ha, if_pos h1, quantityOf_filter_ne, if_pos ha.symm]
    · rw [if_neg ha, quantityOf_filter_ne, if_neg (fun e => ha e.symm), ih, Nat.zero_add]
      by_cases hl : ∃ b ∈ l, b.name = n
      · have h1 : ∃ b ∈ a :: l, b.name = n := by
          obtain ⟨b, hb, hbn⟩ := hl
          exact ⟨b, List.mem_cons_of_mem _ hb, hbn⟩
        rw [if_pos hl, if_pos h1]
      · have h1 : ¬ ∃ b ∈ a :: l, b.name = n := by
          rintro ⟨b, hb, hbn⟩
          rcases List.mem_cons.mp hb with rfl | hb
          · exact ha hbn
          · exact hl ⟨b, hb, hbn⟩
        rw [if_neg hl, if_neg h1]

theorem sum_indicator (L : List Product) (n : String) :
    (L.map (fun p => if n = p.name then 1 else 0)).sum = quantityOf L n := by
  induction L with
  | nil => rfl
  | cons a l ih =>
    rw [List.map_cons, List.sum_cons, ih, quantityOf_cons]
    by_cases h : a.name = n
    · rw [if_pos h, if_pos h.symm]
    · rw [if_neg h, if_neg (fun e => h e.symm)]

theorem sum_quantityOf_firstEntries (cart : List Product) :
    ((firstEntries cart).map (fun p => quantityOf cart p.name)).sum = cart.length := by
  induction cart using List.reverseRecOn with
  | nil => rfl
  | append_singleton l x ih =>
    have hq : ∀ p : Product, quantityOf (l ++ [x]) p.name
        = quantityOf l p.name + (if x.name = p.name then 1 else 0) := by
      intro p
      rw [quantityOf_append, quantityOf_cons, quantityOf_nil, Nat.add_zero]
    have hsum : ∀ L : List Product, (L.map (fun p => quantityOf (l ++ [x]) p.name)).sum
        = (L.map (fun p => quantityOf l p.name)).sum + quantityOf L x.name := by
      intro L
      rw [← sum_indicator L x.name, ← List.sum_map_add]
      congr 1
      apply List.map_congr_left
      intro p _
      exact hq p
    rw [hsum, firstEntries_append_singleton, List.length_append, List.length_singleton]
    by_cases hl : ∃ b ∈ l, b.name = x.name
    · rw [if_pos hl, ih, quantityOf_firstEntries, if_pos hl]
    · rw [if_neg hl, List.map_append, List.sum_append, ih, quantityOf_append,
        quantityOf_firstEntries, if_neg hl, quantityOf_cons, quantityOf_nil, if_pos rfl]
      have h0 : quantityOf l x.name = 0 :=
        quantityOf_eq_zero_of_forall l x.name (fun b hb e => hl ⟨b, hb, e⟩)
      simp [h0]

theorem groupedReference_of_no_proto (cart : List Product)
    (h : ∀ item ∈ cart, item.name ∉ protoKeys) :
    groupedReference cart
      = (firstEntries cart).map
          (fun p => (p.name, { item := p, quantity := quantityOf cart p.name })) := by
  unfold groupedReference
  have hf : (firstEntries cart).filter (fun p => decide (p.name ∉ protoKeys))
      = firstEntries cart := by
    rw [List.filter_eq_self]
    intro p hp
    rw [decide_eq_true_eq]
    exact h p (mem_of_mem_firstEntries cart p hp)
  rw [hf]

/-- For a cart with no name among the properties of `Object.prototype`, the cart
view walks exactly one grouped item per name of the cart, carrying the number of
entries of that name; the quantities add up to the length of the cart. -/
theorem cartGroupedItems_complete (cart : List Product)
    (h : ∀ item ∈ cart, item.name ∉ protoKeys) :
    (∀ n, ((cartGroupedItems cart).filter (fun g => decide (g.name = n))).length
        = if ∃ b ∈ cart, b.name = n then 1 else 0) ∧
      (∀ g ∈ cartGroupedItems cart,
        g.quantity = quantityOf cart g.name ∧ g.itemTotal = g.price * quantityOf cart g.name) ∧
      ((cartGroupedItems cart).map GroupedItem.quantity).sum = cart.length := by
  have hperm : (cartGroupedItems cart).Perm
      ((firstEntries cart).map
        (fun p => { item := p, quantity := quantityOf cart p.name })) := by
    unfold cartGroupedItems
    rw [cartGroupedObject_eq, groupedReference_of_no_proto cart h]
    refine (objectValues_perm _).trans ?_
    rw [List.map_map]
    exact List.Perm.refl _
  refine ⟨?_, ?_, ?_⟩
  · intro n
    rw [(hperm.filter _).length_eq, List.filter_map, List.length_map,
      ← quantityOf_firstEntries cart n]
    rfl
  · intro g hg
    have hq := (mem_cartGroupedItems cart g hg).2.2
    exact ⟨hq, by unfold GroupedItem.itemTotal; rw [hq]⟩
  · rw [(hperm.map GroupedItem.quantity).sum_eq, List.map_map]
    exact sum_quantityOf_firstEntries cart

theorem cartGroupedItems_perm_of_no_proto (cart : List Product)
    (h : ∀ item ∈ cart, item.name ∉ protoKeys) :
    (cartGroupedItems cart).Perm
      ((firstEntries cart).map
        (fun p => { item := p, quantity := quantityOf cart p.name })) := by
  unfold cartGroupedItems
  rw [cartGroupedObject_eq, groupedReference_of_no_proto cart h]
  refine (objectValues_perm _).trans ?_
  rw [List.map_map]
  exact List.Perm.refl _

/-- For a cart with no name among the properties of `Object.prototype`, the number
`total` of `updateCartUI` is the sum, over the first entry of each name, of its
price times the number of entries of that name. -/
theorem cartTotal_of_no_proto (cart : List Product)
    (h : ∀ item ∈ cart, item.name ∉ protoKeys) :
    cartTotal cart
      = ((firstEntries cart).map (fun p => p.price * quantityOf cart p.name)).sum := by
  unfold cartTotal
  rw [cartForEach_snd,
    ((cartGroupedItems_perm_of_no_proto cart h).map GroupedItem.itemTotal).sum_eq, List.map_map]
  rfl

/-! ## The total display over call sequences -/

theorem cartTotal_eq_sum (cart : List Product) :
    cartTotal cart = ((cartGroupedItems cart).map (fun g => g.price * g.quantity)).sum := by
  unfold cartTotal
  rw [cartForEach_snd]
  rfl

theorem totalShown_refresh (n : String) (s : Page) :
    TotalShown (updateProductButton n (updateCartUI s)) := by
  intro h
  have hc : s.cart ≠ [] := by
    rw [updateProductButton_cart, updateCartUI_cart] at h
    exact h
  have h2 : ¬ s.cart.length = 0 := fun e => hc (List.length_eq_zero.mp e)
  rw [updateProductButton_cart, updateCartUI_cart, ← cartTotal_eq_sum]
  refine ⟨updateCartUI_cartTotalAmount s hc, ?_, ?_⟩
  · show (updateCartUI s).cartContentDisplay = "flex"
    unfold updateCartUI
    simp only [h2, if_false]
  · show (updateCartUI s).cartEmptyDisplay = "none"
    unfold updateCartUI
    simp only [h2, if_false]

theorem totalShown_apply (op : Op) (s : Page) (h : TotalShown s) : TotalShown (op.apply s) := by
  cases op with
  | add product => exact totalShown_refresh _ _
  | remove m =>
    show TotalShown (removeFromCart m s)
    unfold removeFromCart
    split
    · exact totalShown_refresh _ _
    · exact h
  | removeAll m => exact totalShown_refresh _ _
  | reset =>
    intro hc
    exact absurd (resetCart_cart s) hc

theorem totalShown_run (ops : List Op) (s : Page) (h : TotalShown s) :
    TotalShown (run ops s) := by
  induction ops generalizing s with
  | nil => exact h
  | cons op ops ih => exact ih (op.apply s) (totalShown_apply op s h)

theorem renderProducts_cart (text : String → String) (data : List Product) (s : Page) :
    (renderProducts text data s).cart = s.cart := by
  unfold renderProducts
  have key : ∀ (t : Page), (data.foldl
      (fun st product => { st with productCards := st.productCards ++ [makeCard text product] })
      t).cart = t.cart := by
    induction data with
    | nil => intro t; rfl
    | cons p ps ih => intro t; rw [List.foldl_cons, ih]
  rw [key]

theorem pageLoad_cart (text : String → String) (html : StaticHtml)
    (data : List Product) :
    (pageLoad text html data).cart = [] := by
  unfold pageLoad
  split
  · rw [renderProducts_cart]
    rfl
  · rfl

/-! ## Product cards and their synchronisation -/

theorem syncCard_nameText (q : Nat) (c : ProductCard) : (syncCard q c).nameText = c.nameText := by
  unfold syncCard
  split <;> rfl

theorem updateFirst_eq_map (n : String) (f : ProductCard → ProductCard)
    (cards : List ProductCard) (hnd : (cards.map ProductCard.nameText).Nodup) :
    updateFirst (fun card => decide (card.nameText = n)) f cards
      = cards.map (fun c => if c.nameText = n then f c else c) := by
  induction cards with
  | nil => rfl
  | cons a as ih =>
    rw [List.map_cons, List.nodup_cons] at hnd
    by_cases ha : a.nameText = n
    · have hrest : as.map (fun c => if c.nameText = n then f c else c) = as := by
        conv => rhs; rw [← List.map_id as]
        apply List.map_congr_left
        intro c hc
        have hcn : ¬ c.nameText = n := by
          intro e
          exact hnd.1 (List.mem_map.mpr ⟨c, hc, e.trans ha.symm⟩)
        simp [hcn]
      simp only [updateFirst, ha, decide_True, if_true, List.map_cons, hrest]
    · simp only [updateFirst, ha, decide_False, if_false, List.map_cons, ih hnd.2]
      simp

theorem updateProductButton_productCards (n : String) (s : Page)
    (hnd : (s.productCards.map ProductCard.nameText).Nodup) :
    (updateProductButton n s).productCards
      = s.productCards.map
          (fun c => if c.nameText = n then syncCard (quantityOf s.cart n) c else c) := by
  unfold updateProductButton
  exact updateFirst_eq_map n _ _ hnd

theorem updateFirst_names (n : String) (q : Nat) (cards : List ProductCard) :
    (updateFirst (fun card => decide (card.nameText = n)) (syncCard q) cards).map
        ProductCard.nameText
      = cards.map ProductCard.nameText := by
  induction cards with
  | nil => rfl
  | cons a as ih =>
    by_cases ha : a.nameText = n
    · simp [updateFirst, ha, syncCard_nameText]
    · simp [updateFirst, ha, ih]

theorem updateProductButton_names (n : String) (s : Page) :
    (updateProductButton n s).productCards.map ProductCard.nameText
      = s.productCards.map ProductCard.nameText :=
  updateFirst_names n _ _

theorem updateProductButton_productsData (n : String) (s : Page) :
    (updateProductButton n s).productsData = s.productsData := rfl

theorem updateCartUI_productCards (s : Page) : (updateCartUI s).productCards = s.productCards := by
  unfold updateCartUI
  split <;> rfl

theorem updateCartUI_productsData (s : Page) : (updateCartUI s).productsData = s.productsData := by
  unfold updateCartUI
  split <;> rfl

/-- One call of `updateProductButton(n)` brings the card named `n` under any
property that `syncCard` establishes, and keeps it for the cards that had it. -/
theorem sync_step (P : Nat → ProductCard → Prop) (hP : ∀ q c, P q (syncCard q c))
    (S : String → Prop) (n : String) (t : Page)
    (hnd : (t.productCards.map ProductCard.nameText).Nodup)
    (h : ∀ card ∈ t.productCards, S card.nameText → P (quantityOf t.cart card.nameText) card) :
    ∀ card ∈ (updateProductButton n t).productCards,
      (S card.nameText ∨ card.nameText = n) → P (quantityOf t.cart card.nameText) card := by
  intro card hcard hS
  rw [updateProductButton_productCards n t hnd, List.mem_map] at hcard
  obtain ⟨c, hc, rfl⟩ := hcard
  by_cases hcn : c.nameText = n
  · simp only [hcn, if_true, syncCard_nameText]
    exact hP _ _
  · simp only [hcn, if_false] at hS ⊢
    rcases hS with hS | hS
    · exact h c hc hS
    · exact hS.elim

theorem foldl_updateProductButton_names (ps : List Product) (t : Page) :
    (ps.foldl (fun st product => updateProductButton product.name st) t).productCards.map
        ProductCard.nameText
      = t.productCards.map ProductCard.nameText := by
  induction ps generalizing t with
  | nil => rfl
  | cons p ps ih => rw [List.foldl_cons, ih, updateProductButton_names]

theorem foldl_updateProductButton_productsData (ps : List Product) (t : Page) :
    (ps.foldl (fun st product => updateProductButton product.name st) t).productsData
      = t.productsData := by
  induction ps generalizing t with
  | nil => rfl
  | cons p ps ih => rw [List.foldl_cons, ih, updateProductButton_productsData]

/-- The loop of `resetCart` brings every card named in the catalog under any
property that `syncCard` establishes. -/
theorem sync_fold (P : Nat → ProductCard → Prop) (hP : ∀ q c, P q (syncCard q c))
    (ps : List Product) (S : String → Prop) (t : Page)
    (hnd : (t.productCards.map ProductCard.nameText).Nodup)
    (h : ∀ card ∈ t.productCards, S card.nameText → P (quantityOf t.cart card.nameText) card) :
    ∀ card ∈ (ps.foldl (fun st product => updateProductButton product.name st) t).productCards,
      (S card.nameText ∨ card.nameText ∈ ps.map Product.name) →
        P (quantityOf t.cart card.nameText) card := by
  induction ps generalizing S t with
  | nil =>
    intro card hcard hS
    rcases hS with hS | hS
    · exact h card hcard hS
    · simp at hS
  | cons p ps ih =>
    intro card hcard hS
    rw [List.foldl_cons] at hcard
    have hnd2 : ((updateProductButton p.name t).productCards.map ProductCard.nameText).Nodup := by
      rw [updateProductButton_names]
      exact hnd
    have h2 := ih (fun m => S m ∨ m = p.name) (updateProductButton p.name t) hnd2
      (sync_step P hP S p.name t hnd h) card hcard
    apply h2
    rcases hS with hS | hS
    · exact Or.inl (Or.inl hS)
    · rw [List.map_cons, List.mem_cons] at hS
      rcases hS with hS | hS
      · exact Or.inl (Or.inr hS)
      · exact Or.inr hS

/-- After `resetCart` every card satisfies, at quantity 0, any property that
`syncCard` establishes, given one card per catalog name and unique names. -/
theorem resetCart_cards (P : Nat → ProductCard → Prop) (hP : ∀ q c, P q (syncCard q c))
    (s : Page)
    (hnames : s.productCards.map ProductCard.nameText = s.productsData.map Product.name)
    (hnd : (s.productsData.map Product.name).Nodup) :
    ∀ card ∈ (resetCart s).productCards, P 0 card := by
  intro card hcard
  unfold resetCart at hcard
  simp only [updateCartUI_productsData] at hcard
  have hnd2 : ((updateCartUI { s with cart := [] }).productCards.map
      ProductCard.nameText).Nodup := by
    rw [updateCartUI_productCards, hnames]
    exact hnd
  have hmem : card.nameText ∈ s.productsData.map Product.name := by
    rw [← hnames]
    have := List.mem_map_of_mem ProductCard.nameText hcard
    rw [foldl_updateProductButton_names, updateCartUI_productCards] at this
    exact this
  have key := sync_fold P hP s.productsData (fun _ => False)
    (updateCartUI { s with cart := [] }) hnd2 (fun _ _ hF => hF.elim) card hcard (Or.inr hmem)
  rw [updateCartUI_cart, quantityOf_nil] at key
  exact key

theorem resetCart_names (s : Page) :
    (resetCart s).productCards.map ProductCard.nameText
      = s.productCards.map ProductCard.nameText := by
  unfold resetCart
  simp only [foldl_updateProductButton_names, updateCartUI_productCards]

theorem resetCart_productsData (s : Page) : (resetCart s).productsData = s.productsData := by
  unfold resetCart
  simp only [foldl_updateProductButton_productsData, updateCartUI_productsData]

/-! ## Cards in step with the cart -/

theorem cardReflects_syncCard (q : Nat) (c : ProductCard) : CardReflects q (syncCard q c) := by
  unfold CardReflects syncCard
  by_cases hq : q > 0
  · rw [if_pos hq]
    exact ⟨fun _ => ⟨rfl, rfl, rfl, rfl⟩, fun h0 => absurd h0 (Nat.pos_iff_ne_zero.mp hq)⟩
  · rw [if_neg hq]
    exact ⟨fun h => absurd h hq,
      fun _ => ⟨(by decide : "flex" ≠ "none"), rfl,
        (by decide : "none" ≠ "2px solid var(--red)")⟩⟩

theorem cardZero_syncCard (q : Nat) (c : ProductCard) : CardZero q (syncCard q c) := by
  intro hq
  subst hq
  exact ⟨rfl, rfl, rfl⟩

theorem cardsInStep_refresh (s : Page) (n : String) (cart : List Product)
    (hs : CardsInStep s)
    (hq : ∀ m, m ≠ n → quantityOf cart m = quantityOf s.cart m) :
    CardsInStep (updateProductButton n (updateCartUI { s with cart := cart })) := by
  obtain ⟨hnames, hnd, hcards⟩ := hs
  refine ⟨?_, ?_, ?_⟩
  · rw [updateProductButton_names, updateCartUI_productCards, updateProductButton_productsData,
      updateCartUI_productsData]
    exact hnames
  · rw [updateProductButton_productsData, updateCartUI_productsData]
    exact hnd
  · intro card hcard
    have hnd2 : ((updateCartUI { s with cart := cart }).productCards.map
        ProductCard.nameText).Nodup := by
      rw [updateCartUI_productCards]
      show (s.productCards.map ProductCard.nameText).Nodup
      rw [hnames]
      exact hnd
    have key := sync_step CardReflects cardReflects_syncCard (fun m => m ≠ n) n
      (updateCartUI { s with cart := cart }) hnd2 (by
        intro c hc hcn
        rw [updateCartUI_cart]
        rw [updateCartUI_productCards] at hc
        show CardReflects (quantityOf cart c.nameText) c
        rw [hq c.nameText hcn]
        exact hcards c hc) card hcard (Decidable.em (card.nameText = n)).symm
    rw [updateProductButton_cart]
    exact key

theorem cardsInStep_apply (op : Op) (s : Page) (hs : CardsInStep s) :
    CardsInStep (op.apply s) := by
  cases op with
  | add product =>
    apply cardsInStep_refresh s product.name (s.cart ++ [product]) hs
    intro m hm
    rw [quantityOf_append, quantityOf_cons, quantityOf_nil, if_neg (fun e => hm e.symm)]
    rfl
  | remove m =>
    show CardsInStep (removeFromCart m s)
    unfold removeFromCart
    cases hfi : findIndex (fun item => decide (item.name = m)) s.cart with
    | none => exact hs
    | some i =>
      have he := findIndex_eraseIdx (fun item => decide (item.name = m)) s.cart
      rw [hfi] at he
      apply cardsInStep_refresh s m (s.cart.eraseIdx i) hs
      intro k hk
      have he2 : s.cart.eraseIdx i = s.cart.eraseP (fun item => decide (item.name = m)) := he
      rw [he2, quantityOf_eraseP, if_neg (fun e => hk e.symm)]
  | removeAll m =>
    apply cardsInStep_refresh s m (s.cart.filter (fun item => decide (item.name ≠ m))) hs
    intro k hk
    rw [quantityOf_filter_ne, if_neg hk]
  | reset =>
    obtain ⟨hnames, hnd, _⟩ := hs
    refine ⟨?_, ?_, ?_⟩
    · show (resetCart s).productCards.map ProductCard.nameText = _
      rw [resetCart_names, hnames]
      show _ = (resetCart s).productsData.map Product.name
      rw [resetCart_productsData]
    · show ((resetCart s).productsData.map Product.name).Nodup
      rw [resetCart_productsData]
      exact hnd
    · intro card hcard
      show CardReflects (quantityOf (resetCart s).cart card.nameText) card
      rw [resetCart_cart, quantityOf_nil]
      exact resetCart_cards CardReflects cardReflects_syncCard s hnames hnd card hcard

theorem cardsInStep_run (ops : List Op) (s : Page) (hs : CardsInStep s) :
    CardsInStep (run ops s) := by
  induction ops generalizing s with
  | nil => exact hs
  | cons op ops ih => exact ih (op.apply s) (cardsInStep_apply op s hs)

theorem renderProducts_productCards (text : String → String) (data : List Product) (s : Page) :
    (renderProducts text data s).productCards = s.productCards ++ data.map (makeCard text) := by
  unfold renderProducts
  have key : ∀ (ps : List Product) (t : Page), (ps.foldl
      (fun st product => { st with productCards := st.productCards ++ [makeCard text product] })
      t).productCards = t.productCards ++ ps.map (makeCard text) := by
    intro ps
    induction ps with
    | nil => intro t; simp
    | cons p ps ih => intro t; rw [List.foldl_cons, ih]; simp
  rw [key]

theorem renderProducts_productsData (text : String → String) (data : List Product) (s : Page) :
    (renderProducts text data s).productsData = data := by
  unfold renderProducts
  have key : ∀ (ps : List Product) (t : Page), (ps.foldl
      (fun st product => { st with productCards := st.productCards ++ [makeCard text product] })
      t).productsData = t.productsData := by
    intro ps
    induction ps with
    | nil => intro t; rfl
    | cons p ps ih => intro t; rw [List.foldl_cons, ih]
  rw [key]

theorem pageLoad_productCards (text : String → String) (html : StaticHtml)
    (data : List Product) :
    (pageLoad text html data).productCards = data.map (makeCard text) := by
  unfold pageLoad
  split
  · rw [renderProducts_productCards]
    rfl
  · next h =>
    have hd : data = [] := List.length_eq_zero.mp (by omega)
    rw [hd]
    rfl

theorem pageLoad_productsData (text : String → String) (html : StaticHtml)
    (data : List Product) :
    (pageLoad text html data).productsData = data := by
  unfold pageLoad
  split
  · rw [renderProducts_productsData]
  · next h =>
    have hd : data = [] := List.length_eq_zero.mp (by omega)
    rw [hd]
    rfl

theorem cardsInStep_pageLoad (text : String → String) (html : StaticHtml) (data : List Product)
    (htext : ∀ p ∈ data, text p.name = p.name)
    (hnd : (data.map Product.name).Nodup) : CardsInStep (pageLoad text html data) := by
  refine ⟨?_, ?_, ?_⟩
  · rw [pageLoad_productCards, pageLoad_productsData, List.map_map]
    apply List.map_congr_left
    intro p hp
    exact htext p hp
  · rw [pageLoad_productsData]
    exact hnd
  · intro card hcard
    rw [pageLoad_cart, quantityOf_nil]
    rw [pageLoad_productCards, List.mem_map] at hcard
    obtain ⟨p, _, rfl⟩ := hcard
    exact ⟨fun h => absurd h (Nat.lt_irrefl 0),
      fun _ => ⟨(by decide : "" ≠ "none"), rfl, (by decide : "" ≠ "2px solid var(--red)")⟩⟩

theorem apply_productsData (op : Op) (s : Page) : (op.apply s).productsData = s.productsData := by
  cases op with
  | add product =>
    show (addToCart product s).productsData = _
    unfold addToCart
    rw [updateProductButton_productsData, updateCartUI_productsData]
  | remove m =>
    show (removeFromCart m s).productsData = _
    unfold removeFromCart
    split
    · rw [updateProductButton_productsData, updateCartUI_productsData]
    · rfl
  | removeAll m =>
    show (removeAllFromCart m s).productsData = _
    unfold removeAllFromCart
    rw [updateProductButton_productsData, updateCartUI_productsData]
  | reset => exact resetCart_productsData s

theorem run_productsData (ops : List Op) (s : Page) :
    (run ops s).productsData = s.productsData := by
  induction ops generalizing s with
  | nil => rfl
  | cons op ops ih => rw [run_cons, ih, apply_productsData]

theorem exists_card_of_names (cards : List ProductCard) (data : List Product)
    (h : cards.map ProductCard.nameText = data.map Product.name) (p : Product) (hp : p ∈ data) :
    ∃ card ∈ cards, card.nameText = p.name := by
  have hm : p.name ∈ cards.map ProductCard.nameText := by
    rw [h]
    exact List.mem_map_of_mem Product.name hp
  obtain ⟨card, hcard, hn⟩ := List.mem_map.mp hm
  exact ⟨card, hcard, hn⟩

/-- While every catalog name reads back from its heading as itself (a name
without markup), the cards follow the cart over every sequence of calls: there is
one card per catalog product, and each card reflects the cart quantity of its
product. -/
theorem cards_follow_cart_of_plain_names (text : String → String) (html : StaticHtml)
    (data : List Product) (htext : ∀ p ∈ data, text p.name = p.name)
    (hnd : (data.map Product.name).Nodup) (ops : List Op) :
    (run ops (pageLoad text html data)).productCards.map ProductCard.nameText
        = data.map Product.name ∧
      (∀ card ∈ (run ops (pageLoad text html data)).productCards,
        CardReflects (quantityOf (run ops (pageLoad text html data)).cart card.nameText) card) ∧
      (∀ p ∈ data, ∃ card ∈ (run ops (pageLoad text html data)).productCards,
        card.nameText = p.name ∧
          CardReflects (quantityOf (run ops (pageLoad text html data)).cart p.name) card) := by
  obtain ⟨hnames, _, hcards⟩ :=
    cardsInStep_run ops (pageLoad text html data) (cardsInStep_pageLoad text html data htext hnd)
  rw [run_productsData, pageLoad_productsData] at hnames
  refine ⟨hnames, hcards, ?_⟩
  intro p hp
  obtain ⟨card, hcard, hcn⟩ := exists_card_of_names _ _ hnames p hp
  refine ⟨card, hcard, hcn, ?_⟩
  rw [← hcn]
  exact hcards card hcard

/-! ## The scenarios of the specification, evaluated -/

/-- Catalog A (5.00), B (3.50); add A twice and B once: the cart view shows A 2x and
B 1x with their subtotals, the total reads 13.50 and the badge reads 3. -/
theorem scenario_add_twice_and_once :
    (run [Op.add productA, Op.add productA, Op.add productB]
        (pageLoad sampleText sampleHtml [productA, productB])).cartItemsContainer
      = [{ nameText := "A", quantityText := "2x", priceText := "@ $5.00",
           totalText := "$10.00", removeName := "A" },
         { nameText := "B", quantityText := "1x", priceText := "@ $3.50",
           totalText := "$3.50", removeName := "B" }] ∧
      (run [Op.add productA, Op.add productA, Op.add productB]
        (pageLoad sampleText sampleHtml [productA, productB])).cartTotalAmount = "$13.50" ∧
      (run [Op.add productA, Op.add productA, Op.add productB]
        (pageLoad sampleText sampleHtml [productA, productB])).cartCount = "3" := by
  decide

/-- From that state, the remove control of B's cart line: B leaves the cart view,
the total reads 10.00 and B's card shows its add control again. -/
theorem scenario_remove_line :
    (run [Op.add productA, Op.add productA, Op.add productB, Op.removeAll "B"]
        (pageLoad sampleText sampleHtml [productA, productB])).cartItemsContainer.map CartItemEl.nameText
      = ["A"] ∧
      (run [Op.add productA, Op.add productA, Op.add productB, Op.removeAll "B"]
        (pageLoad sampleText sampleHtml [productA, productB])).cartTotalAmount = "$10.00" ∧
      (run [Op.add productA, Op.add productA, Op.add productB, Op.removeAll "B"]
        (pageLoad sampleText sampleHtml [productA, productB])).productCards.map
          (fun card => (card.nameText, card.addBtnDisplay, card.addedBtnDisplay))
        = [("A", "none", "flex"), ("B", "flex", "none")] := by
  decide

/-- Confirming the order of two A and one B shows both lines and the total 13.50;
the new-order control closes the surface, empties the cart and puts every card back
to its add control. -/
theorem scenario_confirm_and_new_order :
    (showConfirmationModal (run [Op.add productA, Op.add productA, Op.add productB]
        (pageLoad sampleText sampleHtml [productA, productB]))).confirmOrderContainer
      = ConfirmContent.order
          [{ thumbnail := "thumb.jpg", nameText := "A", quantityText := "2x",
             unitPriceText := "@ $5.00", totalText := "$10.00" },
           { thumbnail := "thumb.jpg", nameText := "B", quantityText := "1x",
             unitPriceText := "@ $3.50", totalText := "$3.50" }]
          "$13.50" ∧
      (resetCart (closeConfirmationModal (showConfirmationModal
        (run [Op.add productA, Op.add productA, Op.add productB]
          (pageLoad sampleText sampleHtml [productA, productB]))))).cart = [] ∧
      (resetCart (closeConfirmationModal (showConfirmationModal
        (run [Op.add productA, Op.add productA, Op.add productB]
          (pageLoad sampleText sampleHtml [productA, productB]))))).confirmOrderModalActive = false ∧
      (resetCart (closeConfirmationModal (showConfirmationModal
        (run [Op.add productA, Op.add productA, Op.add productB]
          (pageLoad sampleText sampleHtml [productA, productB]))))).productCards.map
            (fun card => (card.nameText, card.addBtnDisplay, card.addedBtnDisplay))
        = [("A", "flex", "none"), ("B", "flex", "none")] := by
  decide

/-! ## Cart store: quantities over call sequences (C1) -/

/-- C1, as stated, fails: on the empty cart the single call `removeFromCart("A")`
changes nothing, so the quantity of A equals the number of `addToCart` calls for A
(both are 0) although the sequence does contain a `removeFromCart("A")` call. -/
theorem quantity_eq_addCalls_not_only_without_removal :
    ¬ (quantityOf (run [Op.remove "A"] (initialPage sampleHtml)).cart "A"
          = addCalls [Op.remove "A"] "A"
        ↔ ∀ op ∈ [Op.remove "A"], op ≠ Op.remove "A" ∧ op ≠ Op.removeAll "A") := by
  decide

/-- C1, amended: after any sequence of `addToCart` / `removeFromCart` /
`removeAllFromCart` calls on the empty cart, the quantity of a name `n` is at most
the number of `addToCart` calls made for products named `n`, and it equals that
number exactly when no `removeFromCart(n)` or `removeAllFromCart(n)` call of the
sequence found an entry named `n` in the cart; in particular it equals that number
when the sequence holds no such call. -/
theorem quantity_le_addCalls (s : Page) (hs : s.cart = []) (ops : List Op)
    (hops : ∀ op ∈ ops, op ≠ Op.reset) (n : String) :
    quantityOf (run ops s).cart n ≤ addCalls ops n ∧
      (quantityOf (run ops s).cart n = addCalls ops n ↔ removalFound n ops s = false) ∧
      ((∀ op ∈ ops, op ≠ Op.remove n ∧ op ≠ Op.removeAll n) →
        quantityOf (run ops s).cart n = addCalls ops n) := by
  refine ⟨?_, ?_, ?_⟩
  · have h := quantityOf_run_le ops s n
    rw [hs, quantityOf_nil, Nat.zero_add] at h
    exact h
  · have h := quantityOf_run_eq_iff ops s n hops
    rw [hs, quantityOf_nil, Nat.zero_add] at h
    exact h
  · intro hrem
    have h := quantityOf_run_eq ops s n (fun op hop => ⟨hops op hop, hrem op hop⟩)
    rw [hs, quantityOf_nil, Nat.zero_add] at h
    exact h

/-- Witness for C1: add A twice, remove one A, add B, on the fresh page; the name
is A, one removal call found an entry and the quantity 1 stays below the 2 calls. -/
theorem quantity_le_addCalls_witness :
    (initialPage sampleHtml).cart = [] ∧
      (∀ op ∈ [Op.add productA, Op.add productA, Op.remove "A", Op.add productB],
        op ≠ Op.reset) ∧
      removalFound "A" [Op.add productA, Op.add productA, Op.remove "A", Op.add productB]
        (initialPage sampleHtml) = true ∧
      (quantityOf (run [Op.add productA, Op.add productA, Op.remove "A", Op.add productB]
          (initialPage sampleHtml)).cart "A"
        = addCalls [Op.add productA, Op.add productA, Op.remove "A", Op.add productB] "A"
        ↔ removalFound "A" [Op.add productA, Op.add productA, Op.remove "A", Op.add productB]
          (initialPage sampleHtml) = false) :=
  ⟨rfl, by decide, by decide,
    (quantity_le_addCalls (initialPage sampleHtml) rfl
      [Op.add productA, Op.add productA, Op.remove "A", Op.add productB] (by decide) "A").2.1⟩

/-! ## Cart view: the total display (C2) -/

/-- C2, as stated, fails for the empty cart: after adding A and removing it again
the cart is empty, the sum over its grouped items is 0, and the total display still
reads the 5.00 of the previous cart. -/
theorem total_display_stale_on_empty_cart :
    (run [Op.add productA, Op.remove "A"] (pageLoad sampleText sampleHtml [productA, productB])).cart = [] ∧
      (run [Op.add productA, Op.remove "A"]
        (pageLoad sampleText sampleHtml [productA, productB])).cartTotalAmount = "$5.00" ∧
      "$" ++ toFixed2 ((cartGroupedItems (run [Op.add productA, Op.remove "A"]
        (pageLoad sampleText sampleHtml [productA, productB])).cart).map
          (fun g => g.price * g.quantity)).sum = "$0.00" ∧
      (run [Op.add productA, Op.remove "A"]
        (pageLoad sampleText sampleHtml [productA, productB])).cartTotalAmount
        ≠ "$" ++ toFixed2 ((cartGroupedItems (run [Op.add productA, Op.remove "A"]
            (pageLoad sampleText sampleHtml [productA, productB])).cart).map
              (fun g => g.price * g.quantity)).sum ∧
      (run [Op.add productA, Op.remove "A"]
        (pageLoad sampleText sampleHtml [productA, productB])).cartTotalAmount
        ≠ "$" ++ toFixed2 ((firstEntries (run [Op.add productA, Op.remove "A"]
            (pageLoad sampleText sampleHtml [productA, productB])).cart).map
              (fun p => p.price * quantityOf (run [Op.add productA, Op.remove "A"]
                (pageLoad sampleText sampleHtml [productA, productB])).cart p.name)).sum := by
  decide

/-- C2, amended: in every state reached from the initial page by any sequence of
`addToCart` / `removeFromCart` / `removeAllFromCart` / `resetCart` calls in which the
cart is not empty, the content region holding the total is displayed and, when no
cart entry is named like a property of `Object.prototype`, the total display shows
the sum, over the distinct names of the cart, of the unit price (that of the first
entry of the name) times the number of cart entries of that name; on an empty cart
`updateCartUI` hides the content region, shows the empty state and leaves the text
of the total display as it was. -/
theorem total_display_of_nonempty_cart (text : String → String) (html : StaticHtml)
    (data : List Product) (ops : List Op) :
    ((run ops (pageLoad text html data)).cart ≠ [] →
      (run ops (pageLoad text html data)).cartContentDisplay = "flex" ∧
        (run ops (pageLoad text html data)).cartEmptyDisplay = "none" ∧
        ((∀ item ∈ (run ops (pageLoad text html data)).cart, item.name ∉ protoKeys) →
          (run ops (pageLoad text html data)).cartTotalAmount
            = "$" ++ toFixed2 ((firstEntries (run ops (pageLoad text html data)).cart).map
                (fun p => p.price
                  * quantityOf (run ops (pageLoad text html data)).cart p.name)).sum)) ∧
    (∀ t : Page, t.cart = [] →
      (updateCartUI t).cartTotalAmount = t.cartTotalAmount ∧
        (updateCartUI t).cartContentDisplay = "none" ∧
        (updateCartUI t).cartEmptyDisplay = "flex") := by
  constructor
  · intro hne
    obtain ⟨htotal, hcontent, hempty⟩ := totalShown_run ops (pageLoad text html data)
      (fun h => absurd (pageLoad_cart text html data) h) hne
    refine ⟨hcontent, hempty, ?_⟩
    intro hproto
    rw [htotal, ← cartTotal_eq_sum, cartTotal_of_no_proto _ hproto]
  · intro t ht
    unfold updateCartUI
    simp only [ht, List.length_nil, if_true, and_self]

/-- Witness for C2: catalog A (5.00), B (3.50); add A twice and B once. -/
theorem total_display_of_nonempty_cart_witness :
    (run [Op.add productA, Op.add productA, Op.add productB]
        (pageLoad sampleText sampleHtml [productA, productB])).cart ≠ [] ∧
      (∀ item ∈ (run [Op.add productA, Op.add productA, Op.add productB]
        (pageLoad sampleText sampleHtml [productA, productB])).cart, item.name ∉ protoKeys) ∧
      (run [Op.add productA, Op.add productA, Op.add productB]
        (pageLoad sampleText sampleHtml [productA, productB])).cartTotalAmount
        = "$" ++ toFixed2 ((firstEntries (run [Op.add productA, Op.add productA, Op.add productB]
            (pageLoad sampleText sampleHtml [productA, productB])).cart).map
              (fun p => p.price
                * quantityOf (run [Op.add productA, Op.add productA, Op.add productB]
                    (pageLoad sampleText sampleHtml [productA, productB])).cart p.name)).sum :=
  ⟨by decide, by decide,
    ((total_display_of_nonempty_cart sampleText sampleHtml [productA, productB]
      [Op.add productA, Op.add productA, Op.add productB]).1 (by decide)).2.2 (by decide)⟩

/-! ## Cart store: removal (C4, C5) -/

/-- C4: `removeFromCart(n)` deletes the first entry named `n` and keeps every other
entry in order, so the quantity of `n` drops by one and every other quantity is
unchanged; when no entry is named `n` the whole page is left unchanged. -/
theorem removeFromCart_first_match (s : Page) (n : String) :
    ((∃ x ∈ s.cart, x.name = n) →
      ∃ l₁ a l₂, s.cart = l₁ ++ a :: l₂ ∧ (∀ b ∈ l₁, b.name ≠ n) ∧ a.name = n ∧
        (removeFromCart n s).cart = l₁ ++ l₂ ∧
        quantityOf (removeFromCart n s).cart n + 1 = quantityOf s.cart n ∧
        ∀ m, m ≠ n → quantityOf (removeFromCart n s).cart m = quantityOf s.cart m) ∧
    ((∀ x ∈ s.cart, x.name ≠ n) → removeFromCart n s = s) := by
  constructor
  · rintro ⟨x, hx, hxn⟩
    obtain ⟨a, l₁, l₂, h1, h2, h3, h4⟩ :=
      List.exists_of_eraseP (p := fun item => decide (item.name = n)) hx (by simpa using hxn)
    have ha : a.name = n := by simpa using h2
    refine ⟨l₁, a, l₂, h3, ?_, ha, ?_, ?_, ?_⟩
    · intro b hb
      simpa using h1 b hb
    · rw [removeFromCart_cart, h4]
    · rw [removeFromCart_cart, quantityOf_eraseP, if_pos rfl, h3, quantityOf_append,
        quantityOf_cons, if_pos ha]
      omega
    · intro m hm
      rw [removeFromCart_cart, quantityOf_eraseP, if_neg (fun e => hm e.symm)]
  · intro h
    unfold removeFromCart
    rw [findIndex_eq_none _ _ (fun x hx => by simpa using h x hx)]

/-- C5: after `removeAllFromCart(n)` no cart entry is named `n`, the quantity of `n`
is 0 and no element of the cart view is for `n`; every entry of another name is
kept, in order, so every other quantity is unchanged. -/
theorem removeAllFromCart_every_match (s : Page) (n : String) :
    (∀ x ∈ (removeAllFromCart n s).cart, x.name ≠ n) ∧
      quantityOf (removeAllFromCart n s).cart n = 0 ∧
      (∀ e ∈ (removeAllFromCart n s).cartItemsContainer, e.nameText ≠ n) ∧
      (removeAllFromCart n s).cart = s.cart.filter (fun item => decide (item.name ≠ n)) ∧
      (removeAllFromCart n s).cart.Sublist s.cart ∧
      (∀ x ∈ s.cart, x.name ≠ n → x ∈ (removeAllFromCart n s).cart) ∧
      (∀ m, m ≠ n → quantityOf (removeAllFromCart n s).cart m = quantityOf s.cart m) := by
  have hno : ∀ x ∈ (removeAllFromCart n s).cart, x.name ≠ n := by
    intro x hx
    rw [removeAllFromCart_cart, List.mem_filter] at hx
    simpa using hx.2
  refine ⟨hno, ?_, ?_, removeAllFromCart_cart n s, ?_, ?_, ?_⟩
  · exact quantityOf_eq_zero_of_forall _ _ hno
  · intro e he
    rw [removeAllFromCart, updateProductButton_cartItemsContainer,
      updateCartUI_cartItemsContainer, List.mem_map] at he
    obtain ⟨g, hg, rfl⟩ := he
    have hmem := (mem_cartGroupedItems _ g hg).1
    rw [List.mem_filter] at hmem
    simpa [makeCartItem, GroupedItem.name] using hmem.2
  · rw [removeAllFromCart_cart]
    exact List.filter_sublist _
  · intro x hx hxn
    rw [removeAllFromCart_cart, List.mem_filter]
    exact ⟨hx, by simpa using hxn⟩
  · intro m hm
    rw [removeAllFromCart_cart, quantityOf_filter_ne, if_neg hm]

/-! ## Cart view: grouping (C3, C8) -/

/-- C3, at the failing input: with one unit of a product named `constructor` in the
cart, the quantity of that name is 1 and the badge reads 1, yet the grouped items
are empty and nothing is put into the cart view. -/
theorem cartGroupedItems_misses_prototype_name :
    quantityOf (run [Op.add productConstructor]
        (pageLoad sampleText sampleHtml [productConstructor])).cart "constructor" = 1 ∧
      (run [Op.add productConstructor] (pageLoad sampleText sampleHtml [productConstructor])).cartCount
        = "1" ∧
      cartGroupedItems [productConstructor] = [] ∧
      (run [Op.add productConstructor]
        (pageLoad sampleText sampleHtml [productConstructor])).cartItemsContainer = [] := by
  decide

/-- C8, as stated, fails: for the cart holding a product named `2` and then one
named `1`, the grouped items come out as `1`, `2`, not in first-occurrence order. -/
theorem cartGroupedItems_index_names_reordered :
    (cartGroupedItems [productTwo, productOne]).map GroupedItem.name = ["1", "2"] ∧
      ¬ List.Pairwise
        (fun g h => firstIndex [productTwo, productOne] g.name
          < firstIndex [productTwo, productOne] h.name)
        (cartGroupedItems [productTwo, productOne]) := by
  decide

/-- C8, amended: the grouped items walked by `updateCartUI`, and likewise those
walked by `showConfirmationModal`, are listed as `Object.values` enumerates them:
first the items whose names are array indices, in ascending numeric order, then the
items of all other names in the order in which these names first occur in the cart.
So for every cart none of whose product names is an array index the grouped items
are listed in the order in which their names first occur in the cart. -/
theorem cartGroupedItems_first_seen_order (cart : List Product) :
    ((∀ item ∈ cart, arrayIndex? item.name = none) →
      List.Pairwise (fun g h => firstIndex cart g.name < firstIndex cart h.name)
          (cartGroupedItems cart) ∧
        List.Pairwise (fun g h => firstIndex cart g.name < firstIndex cart h.name)
          (modalGroupedItems cart)) ∧
    ∃ byIndex byName,
      cartGroupedItems cart = byIndex ++ byName ∧
        modalGroupedItems cart = byIndex ++ byName ∧
        (∀ g ∈ byIndex, ∃ i, arrayIndex? g.name = some i) ∧
        List.Pairwise
          (fun g h => ∀ i j, arrayIndex? g.name = some i → arrayIndex? h.name = some j → i ≤ j)
          byIndex ∧
        (∀ g ∈ byName, arrayIndex? g.name = none) ∧
        List.Pairwise (fun g h => firstIndex cart g.name < firstIndex cart h.name) byName := by
  constructor
  · intro h
    have key : List.Pairwise (fun g h => firstIndex cart g.name < firstIndex cart h.name)
        (cartGroupedItems cart) := by
      rw [cartGroupedItems_of_no_index cart h, List.pairwise_map]
      exact List.Pairwise.filter _ (pairwise_firstEntries cart)
    exact ⟨key, by rw [modalGroupedItems_eq]; exact key⟩
  · have hsplit : cartGroupedItems cart
        = (sortByIndex ((groupedReference cart).filterMap
            (fun kv => (arrayIndex? kv.1).map (fun i => (i, kv.2))))).map Prod.snd
          ++ ((groupedReference cart).filter (fun kv => (arrayIndex? kv.1).isNone)).map
            Prod.snd := by
      unfold cartGroupedItems
      rw [cartGroupedObject_eq]
      rfl
    exact ⟨_, _, hsplit, by rw [modalGroupedItems_eq]; exact hsplit,
      (indexPart_sorted cart).1, (indexPart_sorted cart).2,
      (namePart_first_seen cart).1, (namePart_first_seen cart).2⟩

/-- Witness for C8: the cart A, B, A. -/
theorem cartGroupedItems_first_seen_order_witness :
    (∀ item ∈ [productA, productB, productA], arrayIndex? item.name = none) ∧
      List.Pairwise
        (fun g h => firstIndex [productA, productB, productA] g.name
          < firstIndex [productA, productB, productA] h.name)
        (cartGroupedItems [productA, productB, productA]) :=
  ⟨by decide,
    ((cartGroupedItems_first_seen_order [productA, productB, productA]).1 (by decide)).1⟩

/-! ## Order confirmation (C7, C10) -/

/-- C7: on an empty cart `showConfirmationModal` only issues the empty-cart alert;
the cart, the confirmation container, the active state of the confirmation surface,
the product cards and the cart view are left as they were. -/
theorem showConfirmationModal_empty_cart (s : Page) (h : s.cart = []) :
    showConfirmationModal s = { s with alerts := s.alerts ++ [emptyCartAlert] } ∧
      (showConfirmationModal s).cart = s.cart ∧
      (showConfirmationModal s).confirmOrderContainer = s.confirmOrderContainer ∧
      (showConfirmationModal s).confirmOrderModalActive = s.confirmOrderModalActive ∧
      (showConfirmationModal s).productCards = s.productCards ∧
      (showConfirmationModal s).cartItemsContainer = s.cartItemsContainer ∧
      (showConfirmationModal s).cartCount = s.cartCount ∧
      (showConfirmationModal s).cartEmptyDisplay = s.cartEmptyDisplay ∧
      (showConfirmationModal s).cartContentDisplay = s.cartContentDisplay ∧
      (showConfirmationModal s).cartTotalAmount = s.cartTotalAmount := by
  have hs : showConfirmationModal s = { s with alerts := s.alerts ++ [emptyCartAlert] } := by
    unfold showConfirmationModal
    rw [h]
    rfl
  rw [hs]
  exact ⟨rfl, rfl, rfl, rfl, rfl, rfl, rfl, rfl, rfl, rfl⟩

/-- Witness for C7: the freshly loaded page of the catalog A, B. -/
theorem showConfirmationModal_empty_cart_witness :
    (pageLoad sampleText sampleHtml [productA, productB]).cart = [] ∧
      (showConfirmationModal (pageLoad sampleText sampleHtml [productA, productB])).alerts
        = [emptyCartAlert] ∧
      (showConfirmationModal (pageLoad sampleText sampleHtml [productA, productB])).confirmOrderModalActive
        = false :=
  ⟨rfl,
    by rw [(showConfirmationModal_empty_cart (pageLoad sampleText sampleHtml [productA, productB]) rfl).1]
       rfl,
    by rw [(showConfirmationModal_empty_cart (pageLoad sampleText sampleHtml [productA, productB]) rfl).1]
       rfl⟩

/-- C10: on a non-empty cart `showConfirmationModal` walks the same grouped items,
in the same order, and computes the same total as `updateCartUI`; the summary it
writes is built from them and the confirmation surface becomes active. -/
theorem showConfirmationModal_same_grouping (s : Page) (h : s.cart ≠ []) :
    modalGroupedItems s.cart = cartGroupedItems s.cart ∧
      modalTotal s.cart = cartTotal s.cart ∧
      (showConfirmationModal s).confirmOrderContainer
        = ConfirmContent.order ((cartGroupedItems s.cart).map makeConfirmItem)
            (updateCartUI s).cartTotalAmount ∧
      (showConfirmationModal s).confirmOrderModalActive = true := by
  have hlen : ¬ s.cart.length = 0 := fun e => h (List.length_eq_zero.mp e)
  have htot : modalTotal s.cart = cartTotal s.cart := by
    unfold modalTotal cartTotal
    rw [modalForEach_snd, cartForEach_snd, modalGroupedItems_eq]
  refine ⟨rfl, htot, ?_, ?_⟩
  · rw [updateCartUI_cartTotalAmount s h, ← htot]
    unfold showConfirmationModal
    simp only [hlen, if_false, modalForEach_fst, modalGroupedItems_eq]
  · unfold showConfirmationModal
    simp only [hlen, if_false]

/-- Witness for C10: the page after adding A twice and B once. -/
theorem showConfirmationModal_same_grouping_witness :
    (run [Op.add productA, Op.add productA, Op.add productB]
        (pageLoad sampleText sampleHtml [productA, productB])).cart ≠ [] ∧
      (showConfirmationModal (run [Op.add productA, Op.add productA, Op.add productB]
        (pageLoad sampleText sampleHtml [productA, productB]))).confirmOrderModalActive = true :=
  ⟨by decide,
    (showConfirmationModal_same_grouping
      (run [Op.add productA, Op.add productA, Op.add productB]
        (pageLoad sampleText sampleHtml [productA, productB])) (by decide)).2.2.2⟩

/-! ## Product button sync (C6, C9) -/

/-- C6: on a page showing one card per catalog product, names unique, whatever the
cart holds, `resetCart` leaves the cart empty, every quantity at 0, and every
catalog product with its card in the zero state: add control at `flex`, stepper at
`none`, image border at `none`. -/
theorem resetCart_zero_state (s : Page)
    (hnames : s.productCards.map ProductCard.nameText = s.productsData.map Product.name)
    (hnd : (s.productsData.map Product.name).Nodup) :
    (resetCart s).cart = [] ∧
      (∀ n, quantityOf (resetCart s).cart n = 0) ∧
      (resetCart s).productCards.map ProductCard.nameText = s.productsData.map Product.name ∧
      (∀ card ∈ (resetCart s).productCards,
        card.addBtnDisplay = "flex" ∧ card.addedBtnDisplay = "none" ∧
          card.imageBorder = "none") ∧
      (∀ p ∈ s.productsData, ∃ card ∈ (resetCart s).productCards,
        card.nameText = p.name ∧ card.addBtnDisplay = "flex" ∧
          card.addedBtnDisplay = "none" ∧ card.imageBorder = "none") := by
  have hzero : ∀ card ∈ (resetCart s).productCards,
      card.addBtnDisplay = "flex" ∧ card.addedBtnDisplay = "none" ∧
        card.imageBorder = "none" :=
    fun card hcard => resetCart_cards CardZero cardZero_syncCard s hnames hnd card hcard rfl
  have hn : (resetCart s).productCards.map ProductCard.nameText
      = s.productsData.map Product.name := by
    rw [resetCart_names, hnames]
  refine ⟨resetCart_cart s, ?_, hn, hzero, ?_⟩
  · intro n
    rw [resetCart_cart, quantityOf_nil]
  · intro p hp
    obtain ⟨card, hcard, hcn⟩ := exists_card_of_names _ _ hn p hp
    exact ⟨card, hcard, hcn, hzero card hcard⟩

/-- Witness for C6: the page of the catalog A, B after adding A twice and B once. -/
theorem resetCart_zero_state_witness :
    (run [Op.add productA, Op.add productA, Op.add productB]
        (pageLoad sampleText sampleHtml [productA, productB])).productCards.map ProductCard.nameText
      = (run [Op.add productA, Op.add productA, Op.add productB]
        (pageLoad sampleText sampleHtml [productA, productB])).productsData.map Product.name ∧
    ((run [Op.add productA, Op.add productA, Op.add productB]
        (pageLoad sampleText sampleHtml [productA, productB])).productsData.map Product.name).Nodup ∧
    (resetCart (run [Op.add productA, Op.add productA, Op.add productB]
        (pageLoad sampleText sampleHtml [productA, productB]))).cart = [] :=
  ⟨by decide, by decide,
    (resetCart_zero_state
      (run [Op.add productA, Op.add productA, Op.add productB]
        (pageLoad sampleText sampleHtml [productA, productB])) (by decide) (by decide)).1⟩

/-- C9, at the failing input: the catalog holds the one product named
`Fish &amp; Chips`, whose heading reads `Fish & Chips` as text.  After one
`addToCart` of it the cart quantity of the product is 1, yet `updateProductButton`
finds no card of that name and the card is left as rendered: add control shown,
stepper hidden with text 0, image without highlight.  The card does not reflect the
quantity. -/
theorem card_not_found_for_markup_name (text : String → String) (html : StaticHtml)
    (h : text "Fish &amp; Chips" = "Fish & Chips") :
    quantityOf (run [Op.add productFish] (pageLoad text html [productFish])).cart
        productFish.name = 1 ∧
      (run [Op.add productFish] (pageLoad text html [productFish])).productCards.map
          (fun card => (card.nameText, card.addBtnDisplay, card.addedBtnDisplay,
            card.quantityText, card.imageBorder))
        = [("Fish & Chips", "", "none", "0", "")] ∧
      ¬ (∀ card ∈ (run [Op.add productFish] (pageLoad text html [productFish])).productCards,
          CardReflects
            (quantityOf (run [Op.add productFish] (pageLoad text html [productFish])).cart
              productFish.name) card) := by
  have hrun : run [Op.add productFish] (pageLoad text html [productFish])
      = addToCart productFish (pageLoad text html [productFish]) := rfl
  have hname : (makeCard text productFish).nameText = "Fish & Chips" := h
  have hne : ¬ (makeCard text productFish).nameText = productFish.name := by
    rw [hname]
    decide
  have hq : quantityOf (run [Op.add productFish] (pageLoad text html [productFish])).cart
      productFish.name = 1 := by
    rw [hrun, addToCart_cart, pageLoad_cart]
    decide
  have hcards : (run [Op.add productFish] (pageLoad text html [productFish])).productCards
      = [makeCard text productFish] := by
    rw [hrun]
    unfold addToCart updateProductButton
    simp only [updateCartUI_productCards, pageLoad_productCards, List.map_cons, List.map_nil,
      updateFirst, hne, decide_False, Bool.false_eq_true, if_false]
  refine ⟨hq, ?_, ?_⟩
  · rw [hcards]
    show [((makeCard text productFish).nameText, "", "none", "0", "")] = _
    rw [hname]
  · intro hall
    rw [hq, hcards] at hall
    have hshown := ((hall (makeCard text productFish) (List.mem_singleton.mpr rfl)).1
      Nat.one_pos).1
    exact absurd hshown (by decide : ¬ ("" : String) = "none")

/-- Witness for C9: the text function of the examples and the sample cart panel. -/
theorem card_not_found_for_markup_name_witness :
    sampleText "Fish &amp; Chips" = "Fish & Chips" ∧
      (run [Op.add productFish] (pageLoad sampleText sampleHtml [productFish])).productCards.map
          (fun card => (card.nameText, card.addBtnDisplay, card.addedBtnDisplay,
            card.quantityText, card.imageBorder))
        = [("Fish & Chips", "", "none", "0", "")] :=
  ⟨by decide, (card_not_found_for_markup_name sampleText sampleHtml (by decide)).2.1⟩

end ProductCart
